import Mathlib

/-
Verification development for the on-the-fly Opus/Ogg transcoding stream of
vorleser-server (`src/encoder/opusfile.rs`).

Shallow embedding conventions:
* Bytes are `Nat` (values 0..255 where produced by the page layout; opaque
  payload bytes are arbitrary `Nat`).
* Machine integers (`u32`) are `Nat` with explicit `% UINT32` where the source
  performs `u32` arithmetic or an `as u32` cast.
* The GStreamer pipeline (an external collaborator, spec section 4.1
  "SampleSource") is modelled as a fixed list of encoder output packets
  `src_packets` together with a cursor `src_pos`; a time seek repositions the
  cursor at `millis / FRAME_SIZE`.
* The `ogger` bit-stream framer (external collaborator, spec section 4.2
  "OggPacketizer") is modelled from the spec and RFC 3533: a serial number, a
  page counter and a buffer of not-yet-paged packets; `pageout` emits a page
  once at least 4096 body bytes are buffered or a buffered packet carries EOS,
  `flush` emits whatever is buffered.  The CRC field of the page header is not
  computed (RFC 3533 checksum); it is emitted as four zero bytes.  No claim
  below depends on CRC values.
* Rust panics (index out of bounds, `panic!`, `unimplemented!`) are the
  explicit outcome `RRes.panicked`.
-/

set_option autoImplicit false
set_option maxRecDepth 200000
set_option maxHeartbeats 2000000

namespace Vorleser

/-- Wrap-around modulus of 32-bit unsigned arithmetic. -/
def UINT32 : Nat := 4294967296

/-- Source constant: `static FRAME_SIZE: u32 = 20` (milliseconds per packet). -/
def FRAME_SIZE : Nat := 20

/-- Source constant: `static RATE: u32 = 48_000`. -/
def RATE : Nat := 48000

/-- Little-endian encoding of `v` into `w` bytes (RFC 3533 page-header fields). -/
def bytesLE : Nat → Nat → List Nat
  | 0, _ => []
  | w + 1, v => v % 256 :: bytesLE w (v / 256)

/-- Ogg lacing values for one packet of length `n` (RFC 3533: 255-valued
segments followed by a final segment of `n % 255`). -/
def lacingOf (n : Nat) : List Nat :=
  List.replicate (n / 255) 255 ++ [n % 255]

/-- Configuration constants of the stream (source struct `OpusSpec`). -/
structure OpusSpec where
  page_header_size : Nat
  page_body_size : Nat
  packet_size : Nat
  packet_length_ms : Nat
  rate : Nat
deriving Repr, DecidableEq

/-- Source `impl Default for OpusSpec`. -/
def OpusSpec.default : OpusSpec :=
  { page_header_size := 53
    page_body_size := 4160
    packet_size := 160
    packet_length_ms := FRAME_SIZE
    rate := RATE }

/-- Source `OpusSpec::page_duration_ms`. -/
def OpusSpec.page_duration_ms (s : OpusSpec) : Nat :=
  (s.page_body_size / s.packet_size) * s.packet_length_ms

/-- Source struct `Offset` returned by `byte_to_offset` (all fields `u32`). -/
structure Offset where
  millis : Nat
  packet : Nat
  extra_bytes : Nat
deriving Repr, DecidableEq

/-- An ogg packet as submitted to the framer (ogger `Packet` plus the fields
the source sets on it: payload, packetno, granulepos, bos, eos). -/
structure OggPacket where
  payload : List Nat
  packetno : Nat
  granulepos : Nat
  bos : Bool
  eos : Bool
deriving Repr, DecidableEq

/-- An ogg page: header bytes and body bytes (ogger `Page`). -/
structure Page where
  header : List Nat
  body : List Nat
deriving Repr, DecidableEq

/-- Modelled from the spec: state of the `ogger` packet-to-page framer
(`Stream`), which is an external collaborator whose code is not under `src/`
(spec section 4.2): a fixed serial number, the next page sequence number and
the packets buffered but not yet emitted as a page. -/
structure OggStream where
  serial : Nat
  pageno : Nat
  buffered : List OggPacket
deriving Repr, DecidableEq

/-- Total body bytes currently buffered in the framer. -/
def bodyBytes (l : List OggPacket) : Nat :=
  (l.map (fun p => p.payload.length)).sum

/-- Modelled from the spec and RFC 3533: serialize the buffered packets as one
ogg page.  Header layout: capture pattern "OggS", version 0, header-type
(1 = continuation, 2 = BOS, 4 = EOS), 8-byte granule position, 4-byte serial,
4-byte page sequence number, 4-byte CRC (not computed, emitted as zeros),
segment count, lacing values.  Body: the concatenated packet payloads. -/
def pageFromPackets (serial pageno : Nat) (pkts : List OggPacket) : Page :=
  let lac := (pkts.map (fun p => lacingOf p.payload.length)).flatten
  let htype := (if (pkts.head?.map (fun p => p.bos)).getD false then 2 else 0)
    + (if pkts.any (fun p => p.eos) then 4 else 0)
  let gran := ((pkts.getLast?).map (fun p => p.granulepos)).getD 0
  { header := [79, 103, 103, 83, 0, htype] ++ bytesLE 8 gran ++ bytesLE 4 serial
      ++ bytesLE 4 pageno ++ [0, 0, 0, 0] ++ [lac.length % 256] ++ lac
    body := (pkts.map (fun p => p.payload)).flatten }

/-- ogger `Stream::packetin`: buffer one packet. -/
def packetin (st : OggStream) (p : OggPacket) : OggStream :=
  { st with buffered := st.buffered ++ [p] }

/-- Modelled from the spec: ogger `Stream::pageout` — emits a page under the
framer's normal page-size heuristic (at least 4096 body bytes buffered, libogg
threshold) or when a buffered packet carries EOS; otherwise `none`. -/
def pageout (st : OggStream) : Option Page × OggStream :=
  if 4096 ≤ bodyBytes st.buffered ∨ st.buffered.any (fun p => p.eos) then
    (some (pageFromPackets st.serial st.pageno st.buffered),
     { st with pageno := st.pageno + 1, buffered := [] })
  else (none, st)

/-- Modelled from the spec: ogger `Stream::flush` — forces whatever is
buffered out as a page; `none` when the buffer is empty. -/
def flush (st : OggStream) : Option Page × OggStream :=
  if st.buffered.isEmpty then (none, st)
  else (some (pageFromPackets st.serial st.pageno st.buffered),
        { st with pageno := st.pageno + 1, buffered := [] })

/-- Modelled from the spec (section 7 error taxonomy): the error kinds of the
encoder.  The source's `EncoderError` enum lives in `src/encoder/mod.rs`,
which is not among the provided source files. -/
inductive EncErr where
  | invalidState
  | noAudioStream
  | noStreamHeader
  | decoderFailure
  | seekIntoHeader
  | seekNotSupported
  | io
deriving Repr, DecidableEq

/-- Outcome of a fallible source operation: `ok`, a typed error, or a Rust
panic (`panic!`, `unimplemented!`, index out of bounds). -/
inductive RRes (α : Type) where
  | ok (a : α)
  | err (e : EncErr)
  | panicked
deriving Repr, DecidableEq

/-- The variants of `std::io::SeekFrom`. -/
inductive SeekFrom where
  | start (n : Nat)
  | current (n : Int)
  | fromEnd (n : Int)
deriving Repr, DecidableEq

/-- State of the transcoding stream (source struct `OpusFile`).  The fields
`src_packets`, `src_pos`, `id_header`, `comment_header` model the GStreamer
pipeline: the fixed sequence of encoder output packets, the pull cursor, and
the two Opus header blobs exposed via the sink caps (spec section 4.1). -/
structure OpusFile where
  spec : OpusSpec
  src_packets : List (List Nat)
  id_header : List Nat
  comment_header : List Nat
  src_pos : Nat
  byte_offset : Nat
  header_data : Option (List Nat)
  stream : OggStream
  packet_num : Nat
  cached_page : Option Page
  wrote_page_header : Nat
  wrote_page_body : Nat
  to_discard : Nat
deriving Repr, DecidableEq

/-- Source `OpusFile::create` (pipeline construction modelled by the packet
list and header blobs): fresh state with serial `0xf01353`. -/
def OpusFile.create (idh ch : List Nat) (pkts : List (List Nat)) : OpusFile :=
  { spec := OpusSpec.default
    src_packets := pkts
    id_header := idh
    comment_header := ch
    src_pos := 0
    byte_offset := 0
    header_data := none
    stream := { serial := 0xf01353, pageno := 0, buffered := [] }
    packet_num := 0
    cached_page := none
    wrote_page_header := 0
    wrote_page_body := 0
    to_discard := 0 }

/-- Source `OpusFile::build_header_data`: submit the Opus ID header with BOS
set and flush it as a page, then submit the comment header and drain `flush`.
In the model `flush` directly after `packetin` always yields a page, and after
one page the buffer is empty, so the source's `NoStreamHeader` error branches
and the unbounded drain loop are unreachable; the drain is two `flush` calls,
the second of which yields `none`. -/
def build_header_data (s : OpusFile) : List Nat × OggStream :=
  let p0 : OggPacket :=
    { payload := s.id_header, packetno := 0, granulepos := 0, bos := true, eos := false }
  let st := packetin s.stream p0
  let (pg0, st) := flush st
  let data0 := match pg0 with
    | some pg => pg.header ++ pg.body
    | none => []
  let p1 : OggPacket :=
    { payload := s.comment_header, packetno := 0, granulepos := 0, bos := false, eos := false }
  let st := packetin st p1
  let (pg1, st) := flush st
  let data1 := match pg1 with
    | some pg => pg.header ++ pg.body
    | none => []
  let (pg2, st) := flush st
  let data2 := match pg2 with
    | some pg => pg.header ++ pg.body
    | none => []
  (data0 ++ data1 ++ data2, st)

/-- Source `OpusFile::get_header_page_data`: build the header bytes on first
demand and memoise them in `header_data`. -/
def get_header_page_data (s : OpusFile) : List Nat × OpusFile :=
  match s.header_data with
  | some d => (d, s)
  | none =>
    let (d, st) := build_header_data s
    (d, { s with header_data := some d, stream := st })

/-- Result of one `get_next_page`-style pull loop. -/
structure PullRes where
  page : Option Page
  st : OggStream
  pn : Nat
  consumed : Nat
deriving Repr, DecidableEq

/-- The audio packet the pull loop of `OpusFile::get_next_page` constructs
when `packet_num = pn` (source lines 233-241): `packetno = packet_num`, the
counter is incremented (`u32`), `granulepos = packet_num * (RATE / (1000 /
FRAME_SIZE))` in `u32` arithmetic, and the appsink `eos` property is attached.
Modelled from the spec: the `eos` property — per spec section 4.2
end-of-stream is known only once `pull_packet` returns `None`, so every
successful pull reads `false`. -/
def mkAud (pn : Nat) (payload : List Nat) : OggPacket :=
  { payload := payload, packetno := pn,
    granulepos := (pn + 1) % UINT32 * (RATE / (1000 / FRAME_SIZE)) % UINT32,
    bos := false, eos := false }

/-- The `while let Ok(sample) = pull_sample()` loop of
`OpusFile::get_next_page`, recursing over the remaining source packets: each
pulled packet is constructed by `mkAud` and submitted; the loop returns as
soon as `pageout` yields a page. -/
def pullGo : List (List Nat) → OggStream → Nat → Nat → PullRes
  | [], st, pn, consumed => { page := none, st := st, pn := pn, consumed := consumed }
  | payload :: rest, st, pn, consumed =>
    let st := packetin st (mkAud pn payload)
    match pageout st with
    | (some pg, st2) =>
      { page := some pg, st := st2, pn := (pn + 1) % UINT32, consumed := consumed + 1 }
    | (none, st2) => pullGo rest st2 ((pn + 1) % UINT32) (consumed + 1)

/-- Source `OpusFile::get_next_page`. -/
def get_next_page (s : OpusFile) : Option Page × OpusFile :=
  let r := pullGo (s.src_packets.drop s.src_pos) s.stream s.packet_num 0
  (r.page, { s with stream := r.st, packet_num := r.pn, src_pos := s.src_pos + r.consumed })

/-- Source `OpusFile::write_header`: emit bytes of the cached page's header
into a buffer with `bufLen` bytes of room, honouring `to_discard`.  Returns
the bytes written and the updated state.  The source's `cached_page == None`
branch returns an io error (`NotConnected`); it is unreachable from
`read_from_pages`, which guards on `cached_page.is_some()`, and is modelled as
writing nothing. -/
def write_header (s : OpusFile) (bufLen : Nat) : List Nat × OpusFile :=
  match s.cached_page with
  | none => ([], s)
  | some page =>
    let toW := page.header.drop s.wrote_page_header
    let (toW2, s2) :=
      if 0 < toW.length ∧ 0 < s.to_discard then
        if s.to_discard < toW.length then
          (toW.drop s.to_discard, { s with to_discard := 0 })
        else
          (([] : List Nat), { s with to_discard := s.to_discard - toW.length })
      else (toW, s)
    let wrote := min bufLen toW2.length
    (toW2.take wrote,
     { s2 with wrote_page_header := page.header.length - (toW2.length - wrote) })

/-- Source `OpusFile::write_body`: like `write_header` for the body; clears
`cached_page` once the body is fully consumed. -/
def write_body (s : OpusFile) (bufLen : Nat) : List Nat × OpusFile :=
  match s.cached_page with
  | none => ([], s)
  | some page =>
    let toW := page.body.drop s.wrote_page_body
    let (toW2, s2) :=
      if 0 < toW.length ∧ 0 < s.to_discard then
        if s.to_discard < toW.length then
          (toW.drop s.to_discard, { s with to_discard := 0 })
        else
          (([] : List Nat), { s with to_discard := s.to_discard - toW.length })
      else (toW, s)
    let wrote := min bufLen toW2.length
    let s3 := { s2 with wrote_page_body := page.body.length - (toW2.length - wrote) }
    if toW2.length - wrote = 0 then
      (toW2.take wrote, { s3 with cached_page := none })
    else
      (toW2.take wrote, s3)

/-- The nested loops of `OpusFile::read_from_pages`, as a fueled recursion
(`fuel` strictly bounds the number of loop iterations; `read_from_pages`
supplies enough for the recursion never to hit the exhaustion branch).
`first` is true at the initial entry of the outer loop, where the source pulls
a page before any buffer-space check; on every later entry to the pull branch
`wrote < bufLen` holds (the inner loop returns otherwise). -/
def rfpFuel : Nat → Bool → OpusFile → Nat → Nat → List Nat → List Nat × OpusFile
  | 0, _, s, _, _, acc => (acc, s)
  | fuel + 1, first, s, bufLen, wrote, acc =>
    match s.cached_page with
    | none =>
      if first ∨ wrote < bufLen then
        match get_next_page s with
        | (none, s1) => (acc, s1)
        | (some pg, s1) =>
          rfpFuel fuel false
            { s1 with cached_page := some pg, wrote_page_header := 0, wrote_page_body := 0 }
            bufLen wrote acc
      else (acc, s)
    | some _ =>
      if wrote < bufLen then
        let (h, s1) := write_header s (bufLen - wrote)
        let (b, s2) := write_body s1 (bufLen - wrote - h.length)
        rfpFuel fuel false s2 bufLen (wrote + h.length + b.length) (acc ++ h ++ b)
      else (acc, s)

/-- Source `OpusFile::read_from_pages` with a caller buffer of `bufLen` bytes:
returns the bytes written and the updated state. -/
def read_from_pages (s : OpusFile) (bufLen : Nat) : List Nat × OpusFile :=
  rfpFuel (s.src_packets.length + bufLen + 8) true s bufLen 0 []

/-- Source `<OpusFile as Read>::read` with a caller buffer of `bufLen` bytes.
Mirrors the two debug `println!` expressions that index the buffer:

* header branch: after `buf.write` advances the slice, the source evaluates
  `buf[wrote_header - 1]` and `buf[wrote_header]` against the advanced
  (remaining) slice — a panic whenever `wrote_header = 0` (index underflow) or
  `wrote_header ≥ bufLen - wrote_header` (out of bounds);
* page branch: after `read_from_pages`, the source evaluates
  `buf[buf.len() - 2]` against the remaining slice — a panic whenever that
  slice is shorter than 2 bytes.

A panic outcome carries the state as mutated up to the panic point. -/
def read (s : OpusFile) (bufLen : Nat) : RRes (List Nat) × OpusFile :=
  let (header_data, s0) := get_header_page_data s
  if s0.byte_offset < header_data.length then
    let wrote1 := min bufLen (header_data.length - s0.byte_offset)
    let b1 := (header_data.drop s0.byte_offset).take bufLen
    let tail := bufLen - wrote1
    if wrote1 = 0 ∨ tail ≤ wrote1 then (RRes.panicked, s0)
    else
      let s1 := { s0 with byte_offset := s0.byte_offset + wrote1 }
      if s1.byte_offset < header_data.length then
        -- unreachable: wrote1 < header remainder forces wrote1 = bufLen, tail = 0, a panic above
        (RRes.ok b1, s1)
      else
        let (b2, s2) := read_from_pages s1 tail
        if tail < 2 then (RRes.panicked, s2)
        else (RRes.ok (b1 ++ b2), { s2 with byte_offset := s2.byte_offset + b2.length })
  else
    let (b2, s2) := read_from_pages s0 bufLen
    if bufLen < 2 then (RRes.panicked, s2)
    else (RRes.ok b2, { s2 with byte_offset := s2.byte_offset + b2.length })

/-- Source `OpusFile::byte_to_offset`: panics when the position lies inside
the header (`panic!("Seeking that doesn't go beyond the header is not
supported!")`), otherwise pure `u32` page arithmetic.  `pages as u32` and the
`u32` multiplications wrap modulo `2^32`. -/
def byte_to_offset (s : OpusFile) (position : Nat) : RRes Offset × OpusFile :=
  let (hd, s0) := get_header_page_data s
  if position < hd.length then (RRes.panicked, s0)
  else
    let offset_no_header := position - hd.length
    let pgsz := s0.spec.page_header_size + s0.spec.page_body_size
    let pages := offset_no_header / pgsz
    let extra_bytes := offset_no_header % pgsz
    let millis := pages % UINT32 * s0.spec.page_duration_ms % UINT32
    (RRes.ok
      { millis := millis
        packet := pages * (s0.spec.page_body_size / s0.spec.packet_size) % UINT32
        extra_bytes := extra_bytes },
     s0)

/-- Source `<OpusFile as Seek>::seek`.  Only `SeekFrom::Start` is implemented;
the other variants hit `unimplemented!()` (a panic).  On the `Start` path the
source first sets `byte_offset`, computes the offset map (which may panic for
positions inside the header), re-seeks the pipeline in time
(`src_pos := millis / FRAME_SIZE`), primes `to_discard` and `packet_num`, and
clears the page cursor.  The framer `stream` is left untouched. -/
def seek (s : OpusFile) (sf : SeekFrom) : RRes Nat × OpusFile :=
  match sf with
  | SeekFrom.start pos =>
    let s0 := { s with byte_offset := pos }
    match byte_to_offset s0 pos with
    | (RRes.ok off, s1) =>
      let s2 := { s1 with
        src_pos := off.millis / FRAME_SIZE
        to_discard := off.extra_bytes
        packet_num := off.packet
        cached_page := none
        wrote_page_header := 0
        wrote_page_body := 0 }
      (RRes.ok pos, s2)
    | (RRes.err e, s1) => (RRes.err e, s1)
    | (RRes.panicked, s1) => (RRes.panicked, s1)
  | SeekFrom.current _ => (RRes.panicked, s)
  | SeekFrom.fromEnd _ => (RRes.panicked, s)

/-! ## Derived observations and specification-side descriptions -/

/-- Length of the memoised header byte sequence (`header_len` of the spec). -/
def headerLenOf (s : OpusFile) : Nat :=
  (get_header_page_data s).1.length

/-- Bytes of an `ok` read outcome (empty for errors and panics). -/
def okBytes : RRes (List Nat) → List Nat
  | RRes.ok b => b
  | _ => []

/-- A buffer size large enough to hold the whole output of a straight read. -/
def bigBuf (s : OpusFile) : Nat :=
  2 * headerLenOf s + 4213 * (s.src_packets.length + 1) + 2

/-- The straight-read output: bytes of a single `read` from offset 0 with a
buffer that holds the entire stream. -/
def straightRead (s : OpusFile) : List Nat :=
  okBytes (read s (bigBuf s)).1

/-- `seek(SeekFrom::Start(p))` followed by one `read` with a `k`-byte buffer. -/
def seekThenRead (s : OpusFile) (p k : Nat) : RRes (List Nat) :=
  match seek s (SeekFrom.start p) with
  | (RRes.ok _, s1) => (read s1 k).1
  | (RRes.err e, _) => RRes.err e
  | (RRes.panicked, _) => RRes.panicked

/-- The sequence of audio packets submitted to the framer across successive
`get_next_page` calls, starting from packet counter `pn`: the pull loop
constructs `mkAud pn payload` for each source packet in order and steps the
counter modulo `2^32`, independently of when pages are emitted. -/
def submittedFrom (pn : Nat) : List (List Nat) → List OggPacket
  | [] => []
  | payload :: rest => mkAud pn payload :: submittedFrom ((pn + 1) % UINT32) rest

/-- Concatenated bytes of one page as emitted by the page cursor. -/
def pageBytes (p : Page) : List Nat :=
  p.header ++ p.body

/-- Concatenated bytes of a list of pages. -/
def pagesBytes (l : List Page) : List Nat :=
  (l.map pageBytes).flatten

/-- Fueled worker for `audioPages` (fuel strictly exceeds the page count). -/
def audioPagesGo : Nat → Nat → Nat → Nat → List (List Nat) → List Page
  | 0, _, _, _, _ => []
  | fuel + 1, serial, pn, pgno, l =>
    if 26 ≤ l.length then
      pageFromPackets serial pgno (submittedFrom pn (l.take 26))
        :: audioPagesGo fuel serial ((pn + 26) % UINT32) (pgno + 1) (l.drop 26)
    else []

/-- The audio pages the framer emits for the source packets `l` when the
packet counter starts at `pn` and the page counter at `pgno`: packets are
grouped 26 to a page (the 4096-byte libogg threshold at 160-byte packets) and
an incomplete trailing group is never emitted (the source never flushes at
end of stream). -/
def audioPages (serial pn pgno : Nat) (l : List (List Nat)) : List Page :=
  audioPagesGo (l.length + 1) serial pn pgno l

/-- The pure offset map of the spec (section 4.4), a function of the position,
the header length and the `OpusSpec` alone, with the source's `u32` casts. -/
def offsetOf (position hlen : Nat) (spec : OpusSpec) : Offset :=
  let pgsz := spec.page_header_size + spec.page_body_size
  let pages := (position - hlen) / pgsz
  { millis := pages * spec.page_duration_ms % UINT32
    packet := pages * (spec.page_body_size / spec.packet_size) % UINT32
    extra_bytes := (position - hlen) % pgsz }

/-! ## Concrete inputs

A 160-byte packet payload matches the contractual `packet_size`; the 19-byte
ID header and 47-byte comment header reproduce the header length 122 that the
source's own tests (`byte_offset`, `hit_page_boundary`) assert for its sample
inputs: two single-packet header pages of 28 + 19 and 28 + 47 bytes. -/

/-- A 160-byte audio packet payload. -/
def pay160 : List Nat := List.replicate 160 7

/-- A 19-byte Opus ID header blob (the length of a real OpusHead). -/
def idh19 : List Nat := List.replicate 19 1

/-- A 47-byte Opus comment header blob (header length 122 in total). -/
def ch47 : List Nat := List.replicate 47 2

/-- A 100-byte comment header blob (header length 175 in total). -/
def ch100 : List Nat := List.replicate 100 2

/-- Input with 52 audio packets (exactly two full audio pages). -/
def inp52 : OpusFile := OpusFile.create idh19 ch47 (List.replicate 52 pay160)

/-- Input with 27 audio packets (one full audio page and one leftover). -/
def inp27 : OpusFile := OpusFile.create idh19 ch47 (List.replicate 27 pay160)

/-- Input with a single audio packet. -/
def inp1 : OpusFile := OpusFile.create idh19 ch47 [pay160]

/-- Input with no audio packets. -/
def inpE : OpusFile := OpusFile.create idh19 ch47 []

/-- Input whose header length is 175 (the value claim S5 quotes). -/
def inp175 : OpusFile := OpusFile.create idh19 ch100 []

/-! ## Helper lemmas -/

/-- `get_header_page_data` changes at most `header_data` and `stream`. -/
theorem get_header_state (s : OpusFile) :
    ((get_header_page_data s).2).spec = s.spec ∧
    ((get_header_page_data s).2).src_packets = s.src_packets ∧
    ((get_header_page_data s).2).id_header = s.id_header ∧
    ((get_header_page_data s).2).comment_header = s.comment_header ∧
    ((get_header_page_data s).2).src_pos = s.src_pos ∧
    ((get_header_page_data s).2).byte_offset = s.byte_offset ∧
    ((get_header_page_data s).2).packet_num = s.packet_num ∧
    ((get_header_page_data s).2).cached_page = s.cached_page ∧
    ((get_header_page_data s).2).wrote_page_header = s.wrote_page_header ∧
    ((get_header_page_data s).2).wrote_page_body = s.wrote_page_body ∧
    ((get_header_page_data s).2).to_discard = s.to_discard := by
  cases h : s.header_data <;> simp [get_header_page_data, h]

/-- The header bytes do not depend on `byte_offset`. -/
theorem get_header_set_byte_offset (s : OpusFile) (p : Nat) :
    (get_header_page_data { s with byte_offset := p }).1 = (get_header_page_data s).1 := by
  cases h : s.header_data <;> simp [get_header_page_data, h, build_header_data]

/-! ## Claim C7 (corrected) -/

/-- C7 counterexample: on an input whose header length is exactly 175, the
offset map at position 150 000 yields `extra_bytes = 2370`, not the claimed
2423, and the claimed consistency equation fails at `H = 175`. -/
theorem offset_values_h175_cx :
    headerLenOf inp175 = 175 ∧
    (byte_to_offset inp175 150000).1 =
      RRes.ok { millis := 18200, packet := 910, extra_bytes := 2370 } ∧
    (2370 : Nat) ≠ 2423 ∧
    910 / 26 * 4213 + 175 + 2423 ≠ 150000 := by decide

/-- C7 amended: at position 150 000 on an input with header length 122 (the
value the source's own `byte_offset` test implies for its sample input), the
offset map returns millis 18 200, packet 910 and extra_bytes 2423, and
`(packet / 26) * 4213 + H + extra_bytes = 150 000`. -/
theorem offset_values_h122 :
    headerLenOf inp52 = 122 ∧
    (byte_to_offset inp52 150000).1 =
      RRes.ok { millis := 18200, packet := 910, extra_bytes := 2423 } ∧
    910 / 26 * 4213 + 122 + 2423 = 150000 := by decide

/-! ## Claim C6 (corrected) -/

/-- C6 counterexample: seeking with `SeekFrom::Current` (or `End`) hits
`unimplemented!()` — a panic, not the typed error `SeekNotSupported`. -/
theorem seek_variant_panics_cx :
    (seek inp52 (SeekFrom.current 0)).1 = RRes.panicked ∧
    (seek inp52 (SeekFrom.fromEnd 0)).1 = RRes.panicked ∧
    (RRes.panicked : RRes Nat) ≠ RRes.err EncErr.seekNotSupported := by decide

/-- C6 amended: for every `SeekFrom` variant other than `Start`, `seek`
panics (`unimplemented!()`) instead of returning an error. -/
theorem seek_variant_panics (s : OpusFile) (i j : Int) :
    (seek s (SeekFrom.current i)).1 = RRes.panicked ∧
    (seek s (SeekFrom.fromEnd j)).1 = RRes.panicked :=
  ⟨rfl, rfl⟩

/-! ## Claim C5 (corrected) -/

/-- C5 counterexample: a seek to position 0 (inside the header) panics
(`panic!("Seeking that doesn't go beyond the header is not supported!")`)
instead of returning the typed error `SeekIntoHeader`. -/
theorem seek_below_header_panics_cx :
    (seek inp52 (SeekFrom.start 0)).1 = RRes.panicked ∧
    (RRes.panicked : RRes Nat) ≠ RRes.err EncErr.seekIntoHeader := by decide

/-- C5 amended: for every position strictly below the header length, `seek`
panics (via the guard in `byte_to_offset`) instead of returning an error. -/
theorem seek_below_header_panics (s : OpusFile) (p : Nat) (h : p < headerLenOf s) :
    (seek s (SeekFrom.start p)).1 = RRes.panicked := by
  have hb : (byte_to_offset { s with byte_offset := p } p).1 = RRes.panicked := by
    unfold byte_to_offset
    rcases hgh : get_header_page_data { s with byte_offset := p } with ⟨hd, s1⟩
    have hlen : hd.length = headerLenOf s := by
      have h2 := get_header_set_byte_offset s p
      rw [hgh] at h2
      rw [headerLenOf, ← h2]
    simp [hlen, h]
  simp only [seek]
  rcases hbo : byte_to_offset { s with byte_offset := p } p with ⟨r, s1⟩
  rw [hbo] at hb
  simp at hb
  subst hb
  simp

/-- C5 witness: position 121 lies inside the 122-byte header of `inp52` and
seeking there panics. -/
theorem seek_below_header_panics_witness :
    (seek inp52 (SeekFrom.start 121)).1 = RRes.panicked :=
  seek_below_header_panics inp52 121 (by decide)

/-! ## Claim C2 (corrected) -/

/-- C2 counterexample: at position `122 + 4213 * 2^23` the page count is
`2^23` and the `u32` product `pages * 520` wraps: the code returns
`millis = 67 108 864`, not the claimed `((p - H) / 4213) * 520 = 4 362 076 160`. -/
theorem byte_to_offset_overflow_cx :
    (byte_to_offset inp52 35341205626).1 =
      RRes.ok { millis := 67108864, packet := 218103808, extra_bytes := 0 } ∧
    (35341205626 - 122) / 4213 * 520 = 4362076160 ∧
    (67108864 : Nat) ≠ 4362076160 := by decide

/-- Characterization of `byte_to_offset` beyond the header: it computes the
pure `offsetOf` map, and with the default spec the explicit 4213/520/26
formulas reduced modulo `2^32`. -/
theorem byte_to_offset_char (s : OpusFile) (pos : Nat) (h : headerLenOf s ≤ pos) :
    (byte_to_offset s pos).1 = RRes.ok (offsetOf pos (headerLenOf s) s.spec) ∧
    (s.spec = OpusSpec.default →
      (byte_to_offset s pos).1 = RRes.ok
        { millis := (pos - headerLenOf s) / 4213 * 520 % UINT32
          packet := (pos - headerLenOf s) / 4213 * 26 % UINT32
          extra_bytes := (pos - headerLenOf s) % 4213 }) := by
  unfold byte_to_offset
  rcases hgh : get_header_page_data s with ⟨hd, s1⟩
  have hspec : s1.spec = s.spec := by
    have h2 := (get_header_state s).1
    rw [hgh] at h2
    exact h2
  have hlen : hd.length = headerLenOf s := by
    rw [headerLenOf, hgh]
  have hnotlt : ¬ pos < hd.length := by omega
  rw [hlen] at hnotlt
  constructor
  · simp [hnotlt, offsetOf, hlen, hspec, Nat.mod_mul_mod]
  · intro hdef
    simp [hnotlt, hlen, hspec, hdef, Nat.mod_mul_mod, OpusSpec.default,
      OpusSpec.page_duration_ms, FRAME_SIZE, RATE]

/-- C2 amended: for every position at or beyond the header length the offset
map equals the pure function `offsetOf` of (position, header length, spec)
alone, which computes the claimed `pages * 520` / `pages * 26` / remainder
values reduced modulo `2^32` (the source's `u32` casts); with the default
spec the constants are 4213, 520 and 26. -/
theorem byte_to_offset_formula (s : OpusFile) (pos : Nat) (h : headerLenOf s ≤ pos) :
    (byte_to_offset s pos).1 = RRes.ok (offsetOf pos (headerLenOf s) s.spec) ∧
    (s.spec = OpusSpec.default →
      (byte_to_offset s pos).1 = RRes.ok
        { millis := (pos - headerLenOf s) / 4213 * 520 % UINT32
          packet := (pos - headerLenOf s) / 4213 * 26 % UINT32
          extra_bytes := (pos - headerLenOf s) % 4213 }) :=
  byte_to_offset_char s pos h

/-- C2 witness: the formula instantiated at position 150 000 on `inp52`. -/
theorem byte_to_offset_formula_witness :
    (byte_to_offset inp52 150000).1 = RRes.ok (offsetOf 150000 (headerLenOf inp52) inp52.spec) :=
  (byte_to_offset_formula inp52 150000 (by decide)).1

/-! ## Claim C9 (confirmed) -/

/-- `get_next_page` changes only `stream`, `packet_num` and `src_pos`. -/
theorem get_next_page_state (s : OpusFile) :
    ((get_next_page s).2).byte_offset = s.byte_offset ∧
    ((get_next_page s).2).spec = s.spec ∧
    ((get_next_page s).2).src_packets = s.src_packets ∧
    ((get_next_page s).2).id_header = s.id_header ∧
    ((get_next_page s).2).comment_header = s.comment_header ∧
    ((get_next_page s).2).header_data = s.header_data ∧
    ((get_next_page s).2).cached_page = s.cached_page ∧
    ((get_next_page s).2).to_discard = s.to_discard ∧
    ((get_next_page s).2).wrote_page_header = s.wrote_page_header ∧
    ((get_next_page s).2).wrote_page_body = s.wrote_page_body := by
  simp [get_next_page]

/-- `write_header` changes only `to_discard` and `wrote_page_header`. -/
theorem write_header_state (s : OpusFile) (n : Nat) :
    (((write_header s n).2).byte_offset = s.byte_offset) ∧
    (((write_header s n).2).spec = s.spec) ∧
    (((write_header s n).2).src_packets = s.src_packets) ∧
    (((write_header s n).2).id_header = s.id_header) ∧
    (((write_header s n).2).comment_header = s.comment_header) ∧
    (((write_header s n).2).header_data = s.header_data) ∧
    (((write_header s n).2).src_pos = s.src_pos) ∧
    (((write_header s n).2).stream = s.stream) ∧
    (((write_header s n).2).packet_num = s.packet_num) ∧
    (((write_header s n).2).cached_page = s.cached_page) := by
  cases hc : s.cached_page with
  | none => simp [write_header, hc]
  | some pg =>
    simp only [write_header, hc]
    split <;> simp_all <;> split <;> simp_all

/-- `write_body` changes only `to_discard`, `wrote_page_body` and
`cached_page`. -/
theorem write_body_state (s : OpusFile) (n : Nat) :
    (((write_body s n).2).byte_offset = s.byte_offset) ∧
    (((write_body s n).2).spec = s.spec) ∧
    (((write_body s n).2).src_packets = s.src_packets) ∧
    (((write_body s n).2).id_header = s.id_header) ∧
    (((write_body s n).2).comment_header = s.comment_header) ∧
    (((write_body s n).2).header_data = s.header_data) ∧
    (((write_body s n).2).src_pos = s.src_pos) ∧
    (((write_body s n).2).stream = s.stream) ∧
    (((write_body s n).2).packet_num = s.packet_num) ∧
    (((write_body s n).2).wrote_page_header = s.wrote_page_header) := by
  cases hc : s.cached_page with
  | none => simp [write_body, hc]
  | some pg =>
    simp only [write_body, hc]
    split <;> split <;> simp_all <;> split <;> simp_all

/-- The page-reading loop never touches `byte_offset`. -/
theorem rfp_byte_offset (fuel : Nat) : ∀ (first : Bool) (s : OpusFile) (L w : Nat)
    (acc : List Nat), ((rfpFuel fuel first s L w acc).2).byte_offset = s.byte_offset := by
  induction fuel with
  | zero => intro first s L w acc; rfl
  | succ n ih =>
    intro first s L w acc
    rw [rfpFuel]
    cases hc : s.cached_page with
    | none =>
      simp only []
      by_cases hcond : (first = true ∨ w < L)
      · rw [if_pos hcond]
        rcases hg : get_next_page s with ⟨pg, s1⟩
        have hb := (get_next_page_state s).1
        rw [hg] at hb
        simp only [] at hb
        cases pg with
        | none => simpa using hb
        | some p =>
          simp only []
          rw [ih]
          simpa using hb
      · rw [if_neg hcond]
    | some pg =>
      simp only []
      by_cases hcond : w < L
      · rw [if_pos hcond]
        rcases hwh : write_header s (L - w) with ⟨h, s1⟩
        have hb1 := (write_header_state s (L - w)).1
        rw [hwh] at hb1
        simp only [] at hb1
        rcases hwb : write_body s1 (L - w - h.length) with ⟨b, s2⟩
        have hb2 := (write_body_state s1 (L - w - h.length)).1
        rw [hwb] at hb2
        simp only [] at hb2
        simp only []
        rw [ih]
        exact hb2.trans hb1
      · rw [if_neg hcond]

/-- `read_from_pages` never touches `byte_offset`. -/
theorem read_from_pages_byte_offset (s : OpusFile) (n : Nat) :
    ((read_from_pages s n).2).byte_offset = s.byte_offset :=
  rfp_byte_offset _ _ _ _ _ _

/-- `byte_to_offset` never touches `byte_offset`. -/
theorem byte_to_offset_byte_offset (s : OpusFile) (pos : Nat) :
    ((byte_to_offset s pos).2).byte_offset = s.byte_offset := by
  unfold byte_to_offset
  rcases hgh : get_header_page_data s with ⟨hd, s0⟩
  have hb := (get_header_state s).2.2.2.2.2.1
  rw [hgh] at hb
  simp only [] at hb
  simp only []
  split
  · simpa using hb
  · simpa using hb

/-- C9: after a successful `read` returning `n` bytes, `byte_offset` has
advanced by exactly `n`; a successful `seek(SeekFrom::Start(p))` returns `p`
and leaves `byte_offset = p`. -/
theorem byte_offset_accounting :
    (∀ (s : OpusFile) (L : Nat) (b : List Nat) (s2 : OpusFile),
       read s L = (RRes.ok b, s2) → s2.byte_offset = s.byte_offset + b.length) ∧
    (∀ (s : OpusFile) (p r : Nat) (s2 : OpusFile),
       seek s (SeekFrom.start p) = (RRes.ok r, s2) → r = p ∧ s2.byte_offset = p) := by
  constructor
  · intro s L b s2 hread
    unfold read at hread
    rcases hgh : get_header_page_data s with ⟨hd, s0⟩
    have hb0 := (get_header_state s).2.2.2.2.2.1
    rw [hgh] at hb0 hread
    simp only [] at hb0 hread
    by_cases h1 : s0.byte_offset < hd.length
    · rw [if_pos h1] at hread
      by_cases h2 : min L (hd.length - s0.byte_offset) = 0 ∨
          L - min L (hd.length - s0.byte_offset) ≤ min L (hd.length - s0.byte_offset)
      · rw [if_pos h2] at hread
        simp at hread
      · rw [if_neg h2] at hread
        by_cases h3 : s0.byte_offset + min L (hd.length - s0.byte_offset) < hd.length
        · rw [if_pos h3] at hread
          injection hread with hv hs
          injection hv with hb
          subst hb
          subst hs
          simp only [List.length_take, List.length_drop, hb0]
        · rw [if_neg h3] at hread
          rcases hrfp : read_from_pages
              { s0 with byte_offset := s0.byte_offset + min L (hd.length - s0.byte_offset) }
              (L - min L (hd.length - s0.byte_offset)) with ⟨b2, s3⟩
          have hb3 := read_from_pages_byte_offset
            { s0 with byte_offset := s0.byte_offset + min L (hd.length - s0.byte_offset) }
            (L - min L (hd.length - s0.byte_offset))
          rw [hrfp] at hb3 hread
          simp only [] at hb3
          have h4 : ¬ (L - min L (hd.length - s0.byte_offset) < 2) := by omega
          rw [if_neg h4] at hread
          injection hread with hv hs
          injection hv with hb
          subst hb
          subst hs
          simp only [List.length_append, List.length_take, List.length_drop, hb3, hb0]
          omega
    · rw [if_neg h1] at hread
      rcases hrfp : read_from_pages s0 L with ⟨b2, s3⟩
      have hb3 := read_from_pages_byte_offset s0 L
      rw [hrfp] at hb3 hread
      simp only [] at hb3
      by_cases h4 : L < 2
      · rw [if_pos h4] at hread
        simp at hread
      · rw [if_neg h4] at hread
        injection hread with hv hs
        injection hv with hb
        subst hb
        subst hs
        simp only [hb3, hb0]
  · intro s p r s2 hseek
    unfold seek at hseek
    simp only [] at hseek
    rcases hbo : byte_to_offset { s with byte_offset := p } p with ⟨res, s1⟩
    have hb1 := byte_to_offset_byte_offset { s with byte_offset := p } p
    rw [hbo] at hb1 hseek
    simp only [] at hb1
    cases res with
    | ok off =>
      simp only [] at hseek
      injection hseek with h1 h2
      injection h1 with hpr
      subst h2
      exact ⟨hpr.symm, hb1⟩
    | err e => simp at hseek
    | panicked => simp at hseek

/-- C9 witness: a read on the empty-source input advances `byte_offset` by
the returned byte count, and a successful seek on `inp52` lands at its
target. -/
theorem byte_offset_accounting_witness :
    ((read inpE 300).2).byte_offset = inpE.byte_offset + (okBytes (read inpE 300).1).length ∧
    ((seek inp52 (SeekFrom.start 4335)).2).byte_offset = 4335 :=
  ⟨byte_offset_accounting.1 inpE 300 (okBytes (read inpE 300).1) ((read inpE 300).2)
      (by decide),
   (byte_offset_accounting.2 inp52 4335 4335 ((seek inp52 (SeekFrom.start 4335)).2)
      (by decide)).2⟩

/-! ## Claim C3 (corrected) -/

/-- The header cache state does not depend on `byte_offset` (state part). -/
theorem get_header_set_byte_offset_snd (s : OpusFile) (p : Nat) :
    ((get_header_page_data { s with byte_offset := p }).2).stream =
      ((get_header_page_data s).2).stream := by
  cases h : s.header_data <;> simp [get_header_page_data, h, build_header_data]

/-- `byte_to_offset` returns the header-built state in both branches. -/
theorem byte_to_offset_snd (s : OpusFile) (pos : Nat) :
    (byte_to_offset s pos).2 = (get_header_page_data s).2 := by
  unfold byte_to_offset
  rcases hgh : get_header_page_data s with ⟨hd, s0⟩
  simp only []
  split
  · rfl
  · rfl

/-- `headerLenOf` does not depend on `byte_offset`. -/
theorem headerLen_set_byte_offset (s : OpusFile) (p : Nat) :
    headerLenOf { s with byte_offset := p } = headerLenOf s :=
  congrArg List.length (get_header_set_byte_offset s p)

/-- C3 counterexample: after a seek (here to the second audio page of
`inp52`) the framer state is exactly the pre-seek framer state — page counter
2 and all: it is not reset.  A reset per the spec (`reset(new_serial)`:
"discards framer state and begins a fresh logical stream") would leave a
fresh framer, whose page counter is 0. -/
theorem seek_framer_not_reset_cx :
    ((seek inp52 (SeekFrom.start 4335)).2).stream =
      ((get_header_page_data inp52).2).stream ∧
    ((seek inp52 (SeekFrom.start 4335)).2).stream.pageno = 2 ∧
    (2 : Nat) ≠ 0 := by decide

/-- C3 amended: a successful seek re-seeks the sample source in time
(`src_pos = millis / 20`), primes the cursor with the residual byte skip
(`to_discard`), sets `packet_num`, clears the cached page and the in-page
counters, and sets `byte_offset` — but leaves the framer (`stream`) exactly
as it was (after the lazy header build); the packetizer is never reset. -/
theorem seek_state_update (s : OpusFile) (p : Nat) (hspec : s.spec = OpusSpec.default)
    (h : headerLenOf s ≤ p) :
    ∃ s2, seek s (SeekFrom.start p) = (RRes.ok p, s2) ∧
      s2.stream = ((get_header_page_data s).2).stream ∧
      s2.cached_page = none ∧
      s2.wrote_page_header = 0 ∧
      s2.wrote_page_body = 0 ∧
      s2.to_discard = (p - headerLenOf s) % 4213 ∧
      s2.packet_num = (p - headerLenOf s) / 4213 * 26 % UINT32 ∧
      s2.src_pos = (p - headerLenOf s) / 4213 * 520 % UINT32 / FRAME_SIZE ∧
      s2.byte_offset = p := by
  unfold seek
  simp only []
  rcases hbo : byte_to_offset { s with byte_offset := p } p with ⟨res, s1⟩
  have hform := (byte_to_offset_char { s with byte_offset := p } p
    (by rwa [headerLen_set_byte_offset])).2 hspec
  rw [hbo] at hform
  simp only [] at hform
  subst hform
  have hsnd := byte_to_offset_snd { s with byte_offset := p } p
  rw [hbo] at hsnd
  simp only [] at hsnd
  have hstr : s1.stream = ((get_header_page_data s).2).stream := by
    rw [hsnd, get_header_set_byte_offset_snd]
  have hboff : s1.byte_offset = p := by
    have h2 := byte_to_offset_byte_offset { s with byte_offset := p } p
    rw [hbo] at h2
    simpa using h2
  refine ⟨_, rfl, ?_, rfl, rfl, rfl, ?_, ?_, ?_, ?_⟩
  · exact hstr
  · simp [headerLen_set_byte_offset]
  · simp [headerLen_set_byte_offset]
  · simp [headerLen_set_byte_offset]
  · simpa using hboff

/-- C3 witness: the seek state update at position 4335 on `inp52`. -/
theorem seek_state_update_witness :
    ∃ s2, seek inp52 (SeekFrom.start 4335) = (RRes.ok 4335, s2) ∧
      s2.stream = ((get_header_page_data inp52).2).stream ∧
      s2.cached_page = none ∧
      s2.wrote_page_header = 0 ∧
      s2.wrote_page_body = 0 ∧
      s2.to_discard = (4335 - headerLenOf inp52) % 4213 ∧
      s2.packet_num = (4335 - headerLenOf inp52) / 4213 * 26 % UINT32 ∧
      s2.src_pos = (4335 - headerLenOf inp52) / 4213 * 520 % UINT32 / FRAME_SIZE ∧
      s2.byte_offset = 4335 :=
  seek_state_update inp52 4335 rfl (by decide)

/-! ## Claim C8 (corrected) -/

/-- The submitted-packet sequence preserves length. -/
theorem submittedFrom_length (l : List (List Nat)) : ∀ (pn : Nat),
    (submittedFrom pn l).length = l.length := by
  induction l with
  | nil => intro pn; rfl
  | cons x xs ih => intro pn; simp [submittedFrom, ih]

/-- Element `k` of the submitted-packet sequence starting at counter `pn`. -/
theorem submittedFrom_get (l : List (List Nat)) : ∀ (pn k : Nat), pn < UINT32 →
    k < l.length →
    (submittedFrom pn l).get? k = (l.get? k).map (mkAud ((pn + k) % UINT32)) := by
  induction l with
  | nil => intro pn k hpn hk; simp at hk
  | cons x xs ih =>
    intro pn k hpn hk
    cases k with
    | zero => simp [submittedFrom, Nat.mod_eq_of_lt hpn]
    | succ k2 =>
      have hlt : (pn + 1) % UINT32 < UINT32 := Nat.mod_lt _ (by norm_num [UINT32])
      have hk2 : k2 < xs.length := by simpa using hk
      simp only [submittedFrom, List.get?_cons_succ]
      rw [ih ((pn + 1) % UINT32) k2 hlt hk2]
      have harith : ((pn + 1) % UINT32 + k2) % UINT32 = (pn + (k2 + 1)) % UINT32 := by
        rw [Nat.mod_add_mod]
        congr 1
        omega
      rw [harith]

/-- `get?` on a replicated list. -/
theorem get_replicate {α : Type} (a : α) : ∀ (n k : Nat), k < n →
    (List.replicate n a).get? k = some a := by
  intro n
  induction n with
  | zero => intro k hk; omega
  | succ m ih =>
    intro k hk
    cases k with
    | zero => rfl
    | succ k2 => simpa [List.replicate] using ih k2 (by omega)

/-- C8 counterexample: the granule position is computed in `u32` arithmetic
(`packet_num * (RATE / (1000 / FRAME_SIZE))` with `packet_num: u32`), so for
the audio packet with index k = 4 473 924 — reached after about 24.9 hours of
audio, within an audiobook's range — the stored granule position is
`(k+1) * 960 mod 2^32 = 704`, not the claimed `(k+1) * 960 = 4 294 968 000`. -/
theorem granule_wrap_cx :
    (submittedFrom 0 (List.replicate 4473925 pay160)).get? 4473924 =
      some (mkAud 4473924 pay160) ∧
    (mkAud 4473924 pay160).granulepos = 704 ∧
    (704 : Nat) ≠ 4473925 * 960 := by
  refine ⟨?_, by decide, by decide⟩
  have hg := submittedFrom_get (List.replicate 4473925 pay160) 0 4473924
    (by norm_num [UINT32]) (by simp only [List.length_replicate]; norm_num)
  rw [get_replicate pay160 4473925 4473924 (by norm_num)] at hg
  rw [hg]
  simp only [Option.map_some', Option.some.injEq]
  norm_num [UINT32]

/-- C8 amended: the k-th audio packet submitted to the packetizer (0-indexed
over audio packets only — the header packets never touch `packet_num`)
carries granule position `(k+1) * 960 mod 2^32`, which equals the claimed
`(k+1) * (rate / (1000 / packet_length_ms)) = (k+1) * 960` whenever that
product is below `2^32` (streams shorter than about 24.9 hours). -/
theorem granule_rule_mod (pkts : List (List Nat)) (k : Nat) (pk : OggPacket)
    (h : (submittedFrom 0 pkts).get? k = some pk) :
    pk.granulepos = (k + 1) * 960 % UINT32 ∧
    ((k + 1) * 960 < UINT32 → pk.granulepos = (k + 1) * 960) := by
  have hk : k < pkts.length := by
    by_contra hnk
    push_neg at hnk
    have hlen : (submittedFrom 0 pkts).length ≤ k := by
      rw [submittedFrom_length]; exact hnk
    rw [List.get?_eq_none.mpr hlen] at h
    exact absurd h (by simp)
  have hg := submittedFrom_get pkts 0 k (by norm_num [UINT32]) hk
  rw [h] at hg
  cases hx : pkts.get? k with
  | none => rw [hx] at hg; simp at hg
  | some payload =>
    rw [hx] at hg
    simp only [Option.map_some', Nat.zero_add, Option.some.injEq] at hg
    subst hg
    have h960 : RATE / (1000 / FRAME_SIZE) = 960 := by norm_num [RATE, FRAME_SIZE]
    constructor
    · simp only [mkAud, h960]
      rw [Nat.mod_add_mod, Nat.mod_mul_mod]
    · intro hlt
      simp only [mkAud, h960]
      rw [Nat.mod_add_mod, Nat.mod_mul_mod, Nat.mod_eq_of_lt hlt]

/-- C8 witness: the first audio packet of a one-packet stream carries granule
position 960. -/
theorem granule_rule_mod_witness :
    (mkAud 0 pay160).granulepos = (0 + 1) * 960 % UINT32 :=
  (granule_rule_mod [pay160] 0 (mkAud 0 pay160) (by decide)).1

/-! ## Claim C1: framer-run and page-stream lemmas -/

/-- `bytesLE` always produces exactly `w` bytes. -/
theorem bytesLE_length (w : Nat) : ∀ (v : Nat), (bytesLE w v).length = w := by
  induction w with
  | zero => intro v; rfl
  | succ m ih => intro v; simp [bytesLE, ih]

/-- The payloads of the submitted-packet sequence are the source packets. -/
theorem submittedFrom_payloads (l : List (List Nat)) : ∀ (pn : Nat),
    (submittedFrom pn l).map (fun p => p.payload) = l := by
  induction l with
  | nil => intro pn; rfl
  | cons x xs ih => intro pn; simp [submittedFrom, mkAud, ih]

/-- Body bytes of a submitted-packet run over 160-byte payloads. -/
theorem bodyBytes_submittedFrom (l : List (List Nat)) : ∀ (pn : Nat),
    (∀ x ∈ l, x.length = 160) →
    bodyBytes (submittedFrom pn l) = 160 * l.length := by
  induction l with
  | nil => intro pn h; rfl
  | cons x xs ih =>
    intro pn h
    have hx : x.length = 160 := h x (by simp)
    have hxs : ∀ y ∈ xs, y.length = 160 := fun y hy => h y (by simp [hy])
    simp [bodyBytes, submittedFrom, mkAud, hx]
    have := ih ((pn + 1) % UINT32) hxs
    simp [bodyBytes] at this
    rw [this]
    ring

/-- No submitted audio packet carries the EOS flag. -/
theorem submittedFrom_eos (l : List (List Nat)) : ∀ (pn : Nat),
    (submittedFrom pn l).any (fun p => p.eos) = false := by
  induction l with
  | nil => intro pn; rfl
  | cons x xs ih => intro pn; simp [submittedFrom, mkAud, ih]

/-- Appending one payload to a submitted run. -/
theorem submittedFrom_snoc (pre : List (List Nat)) : ∀ (pn : Nat) (x : List Nat),
    pn < UINT32 →
    submittedFrom pn (pre ++ [x]) =
      submittedFrom pn pre ++ [mkAud ((pn + pre.length) % UINT32) x] := by
  induction pre with
  | nil =>
    intro pn x hpn
    simp [submittedFrom, Nat.mod_eq_of_lt hpn]
  | cons p ps ih =>
    intro pn x hpn
    have hlt : (pn + 1) % UINT32 < UINT32 := Nat.mod_lt _ (by norm_num [UINT32])
    simp only [List.cons_append, submittedFrom, List.length_cons, List.append_eq]
    rw [ih ((pn + 1) % UINT32) x hlt]
    have harith : ((pn + 1) % UINT32 + ps.length) % UINT32
        = (pn + (ps.length + 1)) % UINT32 := by
      rw [Nat.mod_add_mod]
      congr 1
      omega
    rw [harith]

/-- Sizes of an audio page built from 26 packets of 160 bytes: a 53-byte
header (27 fixed bytes plus 26 one-byte lacing values) and a 4160-byte body —
the `OpusSpec` constants. -/
theorem page_sizes_26 (serial pgno pn : Nat) (l : List (List Nat))
    (h : ∀ x ∈ l, x.length = 160) (hlen : l.length = 26) :
    (pageFromPackets serial pgno (submittedFrom pn l)).header.length = 53 ∧
    (pageFromPackets serial pgno (submittedFrom pn l)).body.length = 4160 := by
  have hmap : (submittedFrom pn l).map (fun p => p.payload) = l := submittedFrom_payloads l pn
  have hlac : ((submittedFrom pn l).map (fun p => lacingOf p.payload.length)).flatten.length
      = 26 := by
    have h1 : (submittedFrom pn l).map (fun p => lacingOf p.payload.length)
        = l.map (fun x => lacingOf x.length) := by
      conv_rhs => rw [← hmap, List.map_map]
      rfl
    rw [h1, List.length_flatten, List.map_map]
    have h2 : l.map (List.length ∘ fun x => lacingOf x.length) = l.map (fun _ => 1) :=
      List.map_congr_left (fun x hx => by simp [lacingOf, h x hx])
    rw [h2]
    simp [hlen]
  constructor
  · simp only [pageFromPackets, List.length_append, bytesLE_length, List.length_cons,
      List.length_nil, hlac]
  · have hbody : (pageFromPackets serial pgno (submittedFrom pn l)).body = l.flatten := by
      simp only [pageFromPackets]
      rw [hmap]
    rw [hbody, List.length_flatten]
    have h2 : l.map List.length = l.map (fun _ => 160) :=
      List.map_congr_left (fun x hx => h x hx)
    rw [h2]
    simp [hlen]

/-- `audioPagesGo` ignores the fuel once it exceeds the list length. -/
theorem audioPagesGo_fuel (f1 : Nat) : ∀ (f2 serial pn pgno : Nat) (l : List (List Nat)),
    l.length < f1 → l.length < f2 →
    audioPagesGo f1 serial pn pgno l = audioPagesGo f2 serial pn pgno l := by
  induction f1 with
  | zero => intro f2 serial pn pgno l h1 h2; omega
  | succ m ih =>
    intro f2 serial pn pgno l h1 h2
    cases f2 with
    | zero => omega
    | succ m2 =>
      simp only [audioPagesGo]
      by_cases h26 : 26 ≤ l.length
      · rw [if_pos h26, if_pos h26]
        have hd1 : (l.drop 26).length < m := by simp [List.length_drop]; omega
        have hd2 : (l.drop 26).length < m2 := by simp [List.length_drop]; omega
        rw [ih m2 serial ((pn + 26) % UINT32) (pgno + 1) (l.drop 26) hd1 hd2]
      · rw [if_neg h26, if_neg h26]

/-- Unfolding `audioPages` at a full page. -/
theorem audioPages_cons (serial pn pgno : Nat) (l : List (List Nat)) (h26 : 26 ≤ l.length) :
    audioPages serial pn pgno l =
      pageFromPackets serial pgno (submittedFrom pn (l.take 26))
        :: audioPages serial ((pn + 26) % UINT32) (pgno + 1) (l.drop 26) := by
  unfold audioPages
  rw [audioPagesGo]
  rw [if_pos h26]
  congr 1
  apply audioPagesGo_fuel
  · simp [List.length_drop]; omega
  · simp [List.length_drop]

/-- `audioPages` of an incomplete trailing group is empty. -/
theorem audioPages_nil (serial pn pgno : Nat) (l : List (List Nat)) (h : l.length < 26) :
    audioPages serial pn pgno l = [] := by
  unfold audioPages
  rw [audioPagesGo]
  rw [if_neg (by omega)]

/-- `pagesBytes` distributes over cons. -/
theorem pagesBytes_cons (p : Page) (ps : List Page) :
    pagesBytes (p :: ps) = pageBytes p ++ pagesBytes ps := by
  simp [pagesBytes]

/-- The byte stream of the audio pages is bounded by 163 bytes per packet. -/
theorem pagesBytes_bound (n : Nat) : ∀ (l : List (List Nat)) (serial pn pgno : Nat),
    l.length ≤ n → (∀ x ∈ l, x.length = 160) →
    (pagesBytes (audioPages serial pn pgno l)).length ≤ 163 * l.length := by
  induction n with
  | zero =>
    intro l serial pn pgno hn h160
    have : l.length = 0 := by omega
    rw [audioPages_nil serial pn pgno l (by omega)]
    simp [pagesBytes]
  | succ m ih =>
    intro l serial pn pgno hn h160
    by_cases h26 : 26 ≤ l.length
    · rw [audioPages_cons serial pn pgno l h26, pagesBytes_cons]
      have htk : ∀ x ∈ l.take 26, x.length = 160 := fun x hx => h160 x (List.mem_of_mem_take hx)
      have hdr : ∀ x ∈ l.drop 26, x.length = 160 := fun x hx => h160 x (List.mem_of_mem_drop hx)
      have hsz := page_sizes_26 serial pgno pn (l.take 26) htk
        (by simp [List.length_take]; omega)
      have hrec := ih (l.drop 26) serial ((pn + 26) % UINT32) (pgno + 1)
        (by simp [List.length_drop]; omega) hdr
      simp only [List.length_append, pageBytes, hsz.1, hsz.2]
      simp only [List.length_drop] at hrec
      omega
    · rw [audioPages_nil serial pn pgno l (by omega)]
      simp [pagesBytes]

/-- Behaviour of one `get_next_page` pull loop over 160-byte packets: with a
buffer of fewer than 26 packets already framed, the loop pulls packets until
26 are buffered (4160 bytes reaches the 4096-byte threshold) and emits them
as one page, or exhausts the source with everything still buffered. -/
theorem pullGo_run (post : List (List Nat)) : ∀ (pre : List (List Nat))
    (serial pgno pn0 c : Nat),
    (∀ x ∈ pre, x.length = 160) → (∀ x ∈ post, x.length = 160) →
    pre.length < 26 → pn0 < UINT32 →
    pullGo post ⟨serial, pgno, submittedFrom pn0 pre⟩ ((pn0 + pre.length) % UINT32) c =
      if 26 ≤ pre.length + post.length then
        { page := some (pageFromPackets serial pgno
            (submittedFrom pn0 (pre ++ post.take (26 - pre.length))))
          st := ⟨serial, pgno + 1, []⟩
          pn := (pn0 + 26) % UINT32
          consumed := c + (26 - pre.length) }
      else
        { page := none
          st := ⟨serial, pgno, submittedFrom pn0 (pre ++ post)⟩
          pn := (pn0 + pre.length + post.length) % UINT32
          consumed := c + post.length } := by
  induction post with
  | nil =>
    intro pre serial pgno pn0 c hpre hpost hlt hpn
    rw [if_neg (by simp only [List.length_nil]; omega)]
    simp [pullGo]
  | cons x rest ih =>
    intro pre serial pgno pn0 c hpre hpost hlt hpn
    rw [pullGo]
    simp only [packetin]
    rw [← submittedFrom_snoc pre pn0 x hpn]
    have h160x : x.length = 160 := hpost x (by simp)
    have hpre2 : ∀ y ∈ pre ++ [x], y.length = 160 := by
      intro y hy
      rcases List.mem_append.mp hy with hmem | hmem
      · exact hpre y hmem
      · simp at hmem; subst hmem; exact h160x
    have hbb : bodyBytes (submittedFrom pn0 (pre ++ [x])) = 160 * (pre.length + 1) := by
      rw [bodyBytes_submittedFrom _ pn0 hpre2]
      simp
    have heos := submittedFrom_eos (pre ++ [x]) pn0
    by_cases h25 : pre.length = 25
    · have hcond : 4096 ≤ bodyBytes (submittedFrom pn0 (pre ++ [x])) ∨
          (submittedFrom pn0 (pre ++ [x])).any (fun p => p.eos) = true := by
        left
        rw [hbb]
        omega
      have hpo : pageout ⟨serial, pgno, submittedFrom pn0 (pre ++ [x])⟩ =
          (some (pageFromPackets serial pgno (submittedFrom pn0 (pre ++ [x]))),
           ⟨serial, pgno + 1, []⟩) := by
        simp only [pageout]
        rw [if_pos hcond]
      rw [hpo]
      simp only []
      have hge : 26 ≤ pre.length + (x :: rest).length := by
        simp only [List.length_cons]
        omega
      rw [if_pos hge]
      have htake : (x :: rest).take (26 - pre.length) = [x] := by
        rw [h25]
        rfl
      have hpn2 : ((pn0 + pre.length) % UINT32 + 1) % UINT32 = (pn0 + 26) % UINT32 := by
        rw [Nat.mod_add_mod]
        congr 1
        omega
      have hcons : c + (26 - pre.length) = c + 1 := by omega
      rw [htake, hcons, ← hpn2]
    · have hcond : ¬(4096 ≤ bodyBytes (submittedFrom pn0 (pre ++ [x])) ∨
          (submittedFrom pn0 (pre ++ [x])).any (fun p => p.eos) = true) := by
        push_neg
        constructor
        · rw [hbb]
          omega
        · simp [heos]
      have hpo : pageout ⟨serial, pgno, submittedFrom pn0 (pre ++ [x])⟩ =
          (none, ⟨serial, pgno, submittedFrom pn0 (pre ++ [x])⟩) := by
        simp only [pageout]
        rw [if_neg hcond]
      rw [hpo]
      simp only []
      have hpnstep : ((pn0 + pre.length) % UINT32 + 1) % UINT32
          = (pn0 + (pre ++ [x]).length) % UINT32 := by
        rw [Nat.mod_add_mod]
        simp only [List.length_append, List.length_cons, List.length_nil]
        congr 1
      rw [hpnstep]
      rw [ih (pre ++ [x]) serial pgno pn0 (c + 1) hpre2
        (fun y hy => hpost y (by simp [hy])) (by simp; omega) hpn]
      by_cases h26 : 26 ≤ pre.length + (x :: rest).length
      · have hA : 26 ≤ (pre ++ [x]).length + rest.length := by
          simp only [List.length_append, List.length_cons, List.length_nil]
          simp only [List.length_cons] at h26
          omega
        rw [if_pos hA, if_pos h26]
        have htake : (x :: rest).take (26 - pre.length)
            = x :: rest.take (25 - pre.length) := by
          have h1 : 26 - pre.length = (25 - pre.length) + 1 := by omega
          rw [h1, List.take_succ_cons]
        have h2 : 26 - (pre ++ [x]).length = 25 - pre.length := by
          simp only [List.length_append, List.length_cons, List.length_nil]
          omega
        have h3 : (pre ++ [x]) ++ rest.take (25 - pre.length)
            = pre ++ (x :: rest.take (25 - pre.length)) := by
          rw [List.append_assoc]
          rfl
        have hcons : (c + 1) + (25 - pre.length) = c + (26 - pre.length) := by
          omega
        rw [htake, h2, h3, hcons]
      · have hA : ¬ 26 ≤ (pre ++ [x]).length + rest.length := by
          simp only [List.length_append, List.length_cons, List.length_nil]
          simp only [List.length_cons] at h26
          omega
        rw [if_neg hA, if_neg h26]
        have h3 : (pre ++ [x]) ++ rest = pre ++ (x :: rest) := by
          rw [List.append_assoc]
          rfl
        have hpn3 : (pn0 + (pre ++ [x]).length + rest.length) % UINT32
            = (pn0 + pre.length + (x :: rest).length) % UINT32 := by
          simp only [List.length_append, List.length_cons, List.length_nil]
          congr 1
          omega
        have hcons : (c + 1) + rest.length = c + (x :: rest).length := by
          simp only [List.length_cons]
          omega
        rw [h3, hpn3, hcons]

/-- `get_next_page` from a clean framer with at least 26 packets left: one
full page of the next 26 packets is produced and the page counter advances. -/
theorem get_next_page_full (s : OpusFile)
    (h160 : ∀ x ∈ s.src_packets, x.length = 160)
    (hbuf : s.stream.buffered = [])
    (hpn : s.packet_num < UINT32)
    (h26 : 26 ≤ (s.src_packets.drop s.src_pos).length) :
    get_next_page s =
      (some (pageFromPackets s.stream.serial s.stream.pageno
          (submittedFrom s.packet_num ((s.src_packets.drop s.src_pos).take 26))),
       { s with stream := ⟨s.stream.serial, s.stream.pageno + 1, []⟩
                packet_num := (s.packet_num + 26) % UINT32
                src_pos := s.src_pos + 26 }) := by
  have h160d : ∀ x ∈ s.src_packets.drop s.src_pos, x.length = 160 :=
    fun x hx => h160 x (List.mem_of_mem_drop hx)
  unfold get_next_page
  rcases hstream : s.stream with ⟨ser, pgn, buf⟩
  rw [hstream] at hbuf
  simp only [] at hbuf
  subst hbuf
  have hrun := pullGo_run (s.src_packets.drop s.src_pos) [] ser pgn s.packet_num 0
    (by intro x hx; simp at hx) h160d (by simp) hpn
  simp only [submittedFrom, List.length_nil, Nat.add_zero, Nat.mod_eq_of_lt hpn,
    List.nil_append, Nat.zero_add, Nat.sub_zero] at hrun
  rw [if_pos (by omega)] at hrun
  rw [hrun]

/-- `get_next_page` from a clean framer with fewer than 26 packets left: the
source is exhausted, no page is produced, and the pulled packets stay
buffered in the framer (they are lost — nothing ever flushes them). -/
theorem get_next_page_exhaust (s : OpusFile)
    (h160 : ∀ x ∈ s.src_packets, x.length = 160)
    (hbuf : s.stream.buffered = [])
    (hpn : s.packet_num < UINT32)
    (h26 : (s.src_packets.drop s.src_pos).length < 26) :
    get_next_page s =
      (none,
       { s with stream := ⟨s.stream.serial, s.stream.pageno,
                  submittedFrom s.packet_num (s.src_packets.drop s.src_pos)⟩
                packet_num := (s.packet_num + (s.src_packets.drop s.src_pos).length) % UINT32
                src_pos := s.src_pos + (s.src_packets.drop s.src_pos).length }) := by
  have h160d : ∀ x ∈ s.src_packets.drop s.src_pos, x.length = 160 :=
    fun x hx => h160 x (List.mem_of_mem_drop hx)
  unfold get_next_page
  rcases hstream : s.stream with ⟨ser, pgn, buf⟩
  rw [hstream] at hbuf
  simp only [] at hbuf
  subst hbuf
  have hrun := pullGo_run (s.src_packets.drop s.src_pos) [] ser pgn s.packet_num 0
    (by intro x hx; simp at hx) h160d (by simp) hpn
  simp only [submittedFrom, List.length_nil, Nat.add_zero, Nat.mod_eq_of_lt hpn,
    List.nil_append, Nat.zero_add, Nat.sub_zero] at hrun
  rw [if_neg (by omega)] at hrun
  rw [hrun]

/-- Packaging an existential over the second pair component. -/
theorem pair_exists {A B : Type} (a b : A) (s : B) (h : a = b) : ∃ s2, (a, s) = (b, s2) :=
  ⟨s, by rw [h]⟩

/-- Taking at most the length is the same as taking. -/
theorem take_min {α : Type} (l : List α) (n : Nat) : l.take (min n l.length) = l.take n := by
  rcases Nat.le_total n l.length with h | h
  · rw [Nat.min_eq_left h]
  · rw [Nat.min_eq_right h, List.take_length, List.take_of_length_le h]

/-- `take_min` through a drop. -/
theorem take_min_sub {α : Type} (l : List α) (d n : Nat) :
    (l.drop d).take (min n (l.length - d)) = (l.drop d).take n := by
  rw [← List.length_drop, take_min]

/-- Splitting a take-of-drop over an append. -/
theorem take_drop_append {α : Type} (A B : List α) (d n : Nat) :
    ((A ++ B).drop d).take n
      = (A.drop d).take n ++ (B.drop (d - A.length)).take (n - (A.length - d)) := by
  rw [List.drop_append_eq_append_drop, List.take_append_eq_append_take, List.length_drop]

/-- One `write_header` call on a page with nothing written yet: it discards
up to the whole remaining header, emits what fits, and accounts both in
`wrote_page_header`. -/
theorem write_header_run (s : OpusFile) (pg : Page) (n : Nat)
    (hc : s.cached_page = some pg) (hwh0 : s.wrote_page_header = 0)
    (hhl : 0 < pg.header.length) :
    write_header s n =
      ((pg.header.drop s.to_discard).take n,
       { s with
          to_discard := s.to_discard - pg.header.length
          wrote_page_header := pg.header.length -
            ((pg.header.length - s.to_discard)
              - min n (pg.header.length - s.to_discard)) }) := by
  by_cases hd0 : s.to_discard = 0
  · simp only [write_header, hc, hwh0, List.drop_zero, hd0, lt_irrefl, and_false, if_false]
    simp only [Nat.zero_sub, Nat.sub_zero, take_min]
  · by_cases hdh : s.to_discard < pg.header.length
    · simp only [write_header, hc, hwh0, List.drop_zero]
      rw [if_pos ⟨hhl, Nat.pos_of_ne_zero hd0⟩, if_pos hdh]
      simp only [List.length_drop, take_min_sub]
      have e1 : s.to_discard - pg.header.length = 0 := by omega
      rw [e1]
    · simp only [write_header, hc, hwh0, List.drop_zero]
      rw [if_pos ⟨hhl, Nat.pos_of_ne_zero hd0⟩, if_neg hdh]
      simp only [List.length_nil, List.take_nil, Nat.min_zero, Nat.sub_zero]
      have e1 : pg.header.drop s.to_discard = [] :=
        List.drop_eq_nil_of_le (by omega)
      have e2 : pg.header.length - s.to_discard = 0 := by omega
      rw [e1, e2]
      simp

/-- One `write_body` call on a page with nothing of the body written yet and
a residual discard smaller than the body: it discards, emits what fits, and
clears `cached_page` exactly when the rest of the body fits the buffer. -/
theorem write_body_run (t : OpusFile) (pg : Page) (m : Nat)
    (hc : t.cached_page = some pg) (hwb0 : t.wrote_page_body = 0)
    (hdb : t.to_discard < pg.body.length) :
    write_body t m =
      ((pg.body.drop t.to_discard).take m,
       if pg.body.length - t.to_discard ≤ m then
         { t with to_discard := 0
                  wrote_page_body := pg.body.length -
                    ((pg.body.length - t.to_discard)
                      - min m (pg.body.length - t.to_discard))
                  cached_page := none }
       else
         { t with to_discard := 0
                  wrote_page_body := pg.body.length -
                    ((pg.body.length - t.to_discard)
                      - min m (pg.body.length - t.to_discard)) }) := by
  have hbl : 0 < pg.body.length := by omega
  by_cases hd0 : t.to_discard = 0
  · simp only [write_body, hc, hwb0, List.drop_zero, hd0, lt_irrefl, and_false, if_false,
      take_min, Nat.sub_zero]
    by_cases hfits : pg.body.length ≤ m
    · rw [if_pos (by omega), if_pos hfits]
    · rw [if_neg (by omega), if_neg hfits]
  · have hcand : 0 < pg.body.length ∧ 0 < t.to_discard :=
      ⟨hbl, Nat.pos_of_ne_zero hd0⟩
    simp only [write_body, hc, hwb0, List.drop_zero]
    rw [if_pos hcand, if_pos hdb]
    simp only [List.length_drop, take_min_sub]
    by_cases hfits : pg.body.length - t.to_discard ≤ m
    · rw [if_pos (by omega), if_pos hfits]
    · rw [if_neg (by omega), if_neg hfits]

/-- Splitting the byte stream of a full 4213-byte page followed by more
pages, after a discard of `d` bytes and a take of `n`. -/
theorem page_split_take (hdr body R : List Nat) (d n : Nat)
    (h53 : hdr.length = 53) (h4160 : body.length = 4160) (hd : d < 4213) :
    (((hdr ++ body) ++ R).drop d).take n
      = ((hdr.drop d).take n ++ (body.drop (d - 53)).take (n - (53 - d)))
          ++ R.take (n - (4213 - d)) := by
  rw [take_drop_append (hdr ++ body) R d n, take_drop_append hdr body d n]
  simp only [List.length_append, h53, h4160]
  have e1 : d - (53 + 4160) = 0 := by omega
  rw [e1, List.drop_zero]

/-- The central characterization of `read_from_pages`: from a state with no
cached page, an empty framer buffer, and a residual discard smaller than one
page, the loop emits exactly the next bytes of the audio-page stream — the
concatenated pages of 26-packet groups, with `to_discard` leading bytes
dropped and at most the remaining buffer space taken. -/
theorem rfp_char (fuel : Nat) : ∀ (first : Bool) (s : OpusFile) (bufLen wrote : Nat)
    (acc : List Nat),
    s.cached_page = none →
    s.stream.buffered = [] →
    s.packet_num < UINT32 →
    (∀ x ∈ s.src_packets, x.length = 160) →
    s.to_discard < 4213 →
    s.src_packets.length - s.src_pos + (bufLen - wrote) + 4 ≤ fuel →
    ∃ s2, rfpFuel fuel first s bufLen wrote acc =
      (acc ++ ((pagesBytes (audioPages s.stream.serial s.packet_num s.stream.pageno
          (s.src_packets.drop s.src_pos))).drop s.to_discard).take (bufLen - wrote), s2) := by
  induction fuel using Nat.strong_induction_on with
  | _ fuel ih =>
  intro first s bufLen wrote acc hcp hbuf hpn h160 hdisc hfuel
  obtain ⟨f, rfl⟩ : ∃ f, fuel = f + 1 := ⟨fuel - 1, by omega⟩
  rw [rfpFuel, hcp]
  simp only []
  by_cases hcond : (first = true ∨ wrote < bufLen)
  · rw [if_pos hcond]
    by_cases h26 : 26 ≤ (s.src_packets.drop s.src_pos).length
    · -- a full page is pulled
      rw [get_next_page_full s h160 hbuf hpn h26]
      simp only []
      have hremlen : (s.src_packets.drop s.src_pos).length
          = s.src_packets.length - s.src_pos := List.length_drop _ _
      have htk160 : ∀ x ∈ (s.src_packets.drop s.src_pos).take 26, x.length = 160 :=
        fun x hx => h160 x (List.mem_of_mem_drop (List.mem_of_mem_take hx))
      have htklen : ((s.src_packets.drop s.src_pos).take 26).length = 26 := by
        simp [List.length_take]
        omega
      have hsz := page_sizes_26 s.stream.serial s.stream.pageno s.packet_num
        ((s.src_packets.drop s.src_pos).take 26) htk160 htklen
      rw [audioPages_cons s.stream.serial s.packet_num s.stream.pageno _ h26,
        pagesBytes_cons]
      have hdd : (s.src_packets.drop s.src_pos).drop 26
          = s.src_packets.drop (s.src_pos + 26) := by
        rw [List.drop_drop]
      rw [hdd]
      generalize hpg : pageFromPackets s.stream.serial s.stream.pageno
        (submittedFrom s.packet_num ((s.src_packets.drop s.src_pos).take 26)) = pg
      rw [hpg] at hsz
      generalize hR : pagesBytes (audioPages s.stream.serial ((s.packet_num + 26) % UINT32)
        (s.stream.pageno + 1) (s.src_packets.drop (s.src_pos + 26))) = R
      rw [show pageBytes pg = pg.header ++ pg.body from rfl]
      rw [page_split_take _ _ _ _ _ hsz.1 hsz.2 hdisc]
      obtain ⟨f2, rfl⟩ : ∃ f2, f = f2 + 1 := ⟨f - 1, by omega⟩
      rw [rfpFuel]
      simp only []
      by_cases hwl : wrote < bufLen
      · rw [if_pos hwl]
        have hwhr := write_header_run
          { s with stream := ⟨s.stream.serial, s.stream.pageno + 1, []⟩
                   packet_num := (s.packet_num + 26) % UINT32
                   src_pos := s.src_pos + 26
                   cached_page := some pg
                   wrote_page_header := 0
                   wrote_page_body := 0 }
          pg (bufLen - wrote) rfl rfl (by omega)
        rw [hwhr]
        simp only []
        have hh1len : ((pg.header.drop s.to_discard).take (bufLen - wrote)).length
            = min (bufLen - wrote) (53 - s.to_discard) := by
          simp [List.length_take, List.length_drop, hsz.1]
        rw [hh1len]
        have hm : bufLen - wrote - min (bufLen - wrote) (53 - s.to_discard)
            = bufLen - wrote - (53 - s.to_discard) := by omega
        rw [hm]
        have hwbr := write_body_run
          { s with stream := ⟨s.stream.serial, s.stream.pageno + 1, []⟩
                   packet_num := (s.packet_num + 26) % UINT32
                   src_pos := s.src_pos + 26
                   cached_page := some pg
                   wrote_page_header := pg.header.length -
                     ((pg.header.length - s.to_discard)
                       - min (bufLen - wrote) (pg.header.length - s.to_discard))
                   wrote_page_body := 0
                   to_discard := s.to_discard - pg.header.length }
          pg (bufLen - wrote - (53 - s.to_discard)) rfl rfl
          (by simp only [hsz.1, hsz.2]; omega)
        rw [hwbr]
        simp only []
        have hb1len : ((pg.body.drop (s.to_discard - pg.header.length)).take
              (bufLen - wrote - (53 - s.to_discard))).length
            = min (bufLen - wrote - (53 - s.to_discard)) (4160 - (s.to_discard - 53)) := by
          simp [List.length_take, List.length_drop, hsz.1, hsz.2]
        by_cases hfit : 4213 - s.to_discard ≤ bufLen - wrote
        · -- the whole page fits: the body completes and the loop recurses
          rw [if_pos (by simp only [hsz.1, hsz.2]; omega)]
          obtain ⟨s9, hrec⟩ := ih f2 (by omega) false
            { s with stream := ⟨s.stream.serial, s.stream.pageno + 1, []⟩
                     packet_num := (s.packet_num + 26) % UINT32
                     src_pos := s.src_pos + 26
                     cached_page := none
                     wrote_page_header := pg.header.length -
                       ((pg.header.length - s.to_discard)
                         - min (bufLen - wrote) (pg.header.length - s.to_discard))
                     wrote_page_body := pg.body.length -
                       ((pg.body.length - (s.to_discard - pg.header.length))
                         - min (bufLen - wrote - (53 - s.to_discard))
                             (pg.body.length - (s.to_discard - pg.header.length)))
                     to_discard := 0 }
            bufLen
            (wrote + min (bufLen - wrote) (53 - s.to_discard)
              + ((pg.body.drop (s.to_discard - pg.header.length)).take
                  (bufLen - wrote - (53 - s.to_discard))).length)
            (acc ++ (pg.header.drop s.to_discard).take (bufLen - wrote)
              ++ (pg.body.drop (s.to_discard - pg.header.length)).take
                  (bufLen - wrote - (53 - s.to_discard)))
            rfl rfl (Nat.mod_lt _ (by norm_num [UINT32])) h160 (by norm_num)
            (by simp only [hb1len, hsz.1, hsz.2]; omega)
          rw [hrec]
          refine ⟨s9, ?_⟩
          simp only []
          rw [hR]
          rw [List.drop_zero]
          have htake : R.take (bufLen - (wrote + min (bufLen - wrote) (53 - s.to_discard)
                + ((pg.body.drop (s.to_discard - pg.header.length)).take
                    (bufLen - wrote - (53 - s.to_discard))).length))
              = R.take (bufLen - wrote - (4213 - s.to_discard)) := by
            rw [hb1len]
            congr 1
            omega
          rw [htake]
          rw [List.append_assoc, List.append_assoc, List.append_assoc]
          rw [hsz.1]
        · -- the buffer fills inside this page: one more step returns
          rw [if_neg (by simp only [hsz.1, hsz.2]; omega)]
          obtain ⟨f3, rfl⟩ : ∃ f3, f2 = f3 + 1 := ⟨f2 - 1, by omega⟩
          rw [rfpFuel]
          simp only []
          rw [if_neg (by rw [hb1len]; omega)]
          apply pair_exists
          have hRnil : R.take (bufLen - wrote - (4213 - s.to_discard)) = [] := by
            have h0 : bufLen - wrote - (4213 - s.to_discard) = 0 := by omega
            rw [h0, List.take_zero]
          rw [hRnil, List.append_nil, List.append_assoc]
          rw [hsz.1]
      · rw [if_neg hwl]
        apply pair_exists
        have h0 : bufLen - wrote = 0 := by omega
        rw [h0]
        simp [Nat.zero_sub]
    · -- fewer than 26 packets left: no page, the loop exits
      rw [get_next_page_exhaust s h160 hbuf hpn (by omega)]
      simp only []
      apply pair_exists
      rw [audioPages_nil _ _ _ _ (by omega)]
      simp [pagesBytes]
  · rw [if_neg hcond]
    apply pair_exists
    have h0 : bufLen - wrote = 0 := by omega
    rw [h0, List.take_zero, List.append_nil]

/-- `get_header_page_data` on a state with no memoised header data: it builds
the header bytes, memoises them and keeps the framer state of the build. -/
theorem get_header_build (s : OpusFile) (h : s.header_data = none) :
    get_header_page_data s =
      ((build_header_data s).1,
       { s with header_data := some (build_header_data s).1,
                stream := (build_header_data s).2 }) := by
  unfold get_header_page_data
  rw [h]

/-- `get_header_page_data` on a state with memoised header data. -/
theorem get_header_memo (s : OpusFile) (d : List Nat) (h : s.header_data = some d) :
    get_header_page_data s = (d, s) := by
  unfold get_header_page_data
  rw [h]

/-- The header build from a fresh framer leaves an empty framer with page
counter 2 (one page per header packet). -/
theorem build_header_stream (s : OpusFile) (serial : Nat)
    (hst : s.stream = { serial := serial, pageno := 0, buffered := [] }) :
    (build_header_data s).2 = { serial := serial, pageno := 2, buffered := [] } := by
  unfold build_header_data
  rw [hst]
  simp [packetin, flush]

/-- Dropping `j` full pages of bytes from the audio-page stream restarts it
`26 j` packets later with the page counter advanced by `j`. -/
theorem pagesBytes_drop (serial j : Nat) : ∀ (pn pgno : Nat) (l : List (List Nat)),
    (∀ x ∈ l, x.length = 160) → pn < UINT32 →
    (pagesBytes (audioPages serial pn pgno l)).drop (4213 * j)
      = pagesBytes (audioPages serial ((pn + 26 * j) % UINT32) (pgno + j)
          (l.drop (26 * j))) := by
  induction j with
  | zero =>
    intro pn pgno l h160 hpn
    norm_num [Nat.mod_eq_of_lt hpn]
  | succ m ih =>
    intro pn pgno l h160 hpn
    by_cases h26 : 26 ≤ l.length
    · rw [audioPages_cons serial pn pgno l h26, pagesBytes_cons]
      have hsz := page_sizes_26 serial pgno pn (l.take 26)
        (fun x hx => h160 x (List.mem_of_mem_take hx))
        (by simp [List.length_take]; omega)
      have hlen : (pageBytes (pageFromPackets serial pgno
          (submittedFrom pn (l.take 26)))).length = 4213 := by
        simp [pageBytes, hsz.1, hsz.2]
      rw [List.drop_append_eq_append_drop]
      have hnil : (pageBytes (pageFromPackets serial pgno
          (submittedFrom pn (l.take 26)))).drop (4213 * (m + 1)) = [] := by
        apply List.drop_eq_nil_of_le
        rw [hlen]
        omega
      rw [hnil, List.nil_append, hlen]
      have harg : 4213 * (m + 1) - 4213 = 4213 * m := by omega
      rw [harg]
      rw [ih ((pn + 26) % UINT32) (pgno + 1) (l.drop 26)
        (fun x hx => h160 x (List.mem_of_mem_drop hx))
        (Nat.mod_lt _ (by norm_num [UINT32]))]
      clear hsz hlen hnil harg ih h160 h26 hpn
      have h1 : ((pn + 26) % UINT32 + 26 * m) % UINT32 = (pn + 26 * (m + 1)) % UINT32 := by
        rw [Nat.mod_add_mod]
        congr 1
        ring
      have h2 : (l.drop 26).drop (26 * m) = l.drop (26 * (m + 1)) := by
        rw [List.drop_drop]
        congr 1
        ring
      have h3 : pgno + 1 + m = pgno + (m + 1) := by omega
      rw [h1, h2, h3]
    · rw [audioPages_nil serial pn pgno l (by omega)]
      rw [audioPages_nil serial _ _ (l.drop (26 * (m + 1)))
        (by simp [List.length_drop]; omega)]
      simp [pagesBytes]

/-- A successful seek from a fresh state (no memoised header, fresh framer,
no page-count wrap): the complete resulting state, with the framer primed by
the header build and otherwise untouched. -/
theorem seek_start_run (s : OpusFile) (p serial : Nat)
    (hspec : s.spec = OpusSpec.default)
    (hhd : s.header_data = none)
    (hst : s.stream = { serial := serial, pageno := 0, buffered := [] })
    (hp : headerLenOf s ≤ p)
    (hnw : (p - headerLenOf s) / 4213 * 520 < UINT32) :
    seek s (SeekFrom.start p) =
      (RRes.ok p,
       { s with
           byte_offset := p
           header_data := some (get_header_page_data s).1
           stream := { serial := serial, pageno := 2, buffered := [] }
           src_pos := (p - headerLenOf s) / 4213 * 26
           to_discard := (p - headerLenOf s) % 4213
           packet_num := (p - headerLenOf s) / 4213 * 26 % UINT32
           cached_page := none
           wrote_page_header := 0
           wrote_page_body := 0 }) := by
  have hbeq : build_header_data { s with byte_offset := p } = build_header_data s := rfl
  have hgh0 := get_header_build { s with byte_offset := p } hhd
  rw [hbeq] at hgh0
  have hgh := get_header_build s hhd
  have hstr := build_header_stream s serial hst
  have hfst : (get_header_page_data s).1 = (build_header_data s).1 := by rw [hgh]
  have hbo : byte_to_offset { s with byte_offset := p } p =
      (RRes.ok { millis := (p - headerLenOf s) / 4213 * 520 % UINT32
                 packet := (p - headerLenOf s) / 4213 * 26 % UINT32
                 extra_bytes := (p - headerLenOf s) % 4213 },
       { s with byte_offset := p
                header_data := some (get_header_page_data s).1
                stream := { serial := serial, pageno := 2, buffered := [] } }) := by
    have h1 := (byte_to_offset_char { s with byte_offset := p } p
      (by rwa [headerLen_set_byte_offset])).2 hspec
    have h2 := byte_to_offset_snd { s with byte_offset := p } p
    rw [hgh0] at h2
    simp only [] at h2
    rw [headerLen_set_byte_offset] at h1
    rw [Prod.ext_iff]
    constructor
    · exact h1
    · rw [h2, hstr, hfst]
  unfold seek
  simp only []
  rw [hbo]
  simp only []
  have hsrc : (p - headerLenOf s) / 4213 * 520 % UINT32 / FRAME_SIZE
      = (p - headerLenOf s) / 4213 * 26 := by
    rw [Nat.mod_eq_of_lt hnw, FRAME_SIZE]
    omega
  rw [hsrc]

/-- A straight read from a fresh state with a buffer holding everything:
the memoised header bytes followed by the entire audio-page byte stream. -/
theorem read_full_char (s : OpusFile) (serial : Nat)
    (hhd : s.header_data = none)
    (hst : s.stream = { serial := serial, pageno := 0, buffered := [] })
    (hcp : s.cached_page = none)
    (hsp : s.src_pos = 0)
    (hby : s.byte_offset = 0)
    (hpn : s.packet_num = 0)
    (htd : s.to_discard = 0)
    (h160 : ∀ x ∈ s.src_packets, x.length = 160)
    (hH : 0 < headerLenOf s) :
    straightRead s = (get_header_page_data s).1
      ++ pagesBytes (audioPages serial 0 2 s.src_packets) := by
  have hgh := get_header_build s hhd
  have hstr := build_header_stream s serial hst
  have hfst : (get_header_page_data s).1 = (build_header_data s).1 := by rw [hgh]
  have hlen : (build_header_data s).1.length = headerLenOf s := by
    rw [headerLenOf, hfst]
  have hbig : bigBuf s = 2 * headerLenOf s + 4213 * (s.src_packets.length + 1) + 2 := rfl
  have hbound := pagesBytes_bound s.src_packets.length s.src_packets serial 0 2 le_rfl h160
  rw [hfst]
  unfold straightRead
  unfold read
  rw [hgh]
  simp only []
  rw [hby]
  rw [if_pos (by rw [hlen]; exact hH)]
  rw [if_neg (by rw [hbig, hlen]; omega)]
  rw [if_neg (by rw [hbig, hlen]; omega)]
  unfold read_from_pages
  simp only []
  obtain ⟨s9, hrec⟩ := rfp_char
    (s.src_packets.length + (bigBuf s - min (bigBuf s) ((build_header_data s).1.length - 0)) + 8)
    true
    { s with header_data := some (build_header_data s).1
             stream := (build_header_data s).2
             byte_offset := 0 + min (bigBuf s) ((build_header_data s).1.length - 0) }
    (bigBuf s - min (bigBuf s) ((build_header_data s).1.length - 0)) 0 []
    hcp (by simp only []; rw [hstr]) (by simp only []; rw [hpn]; norm_num [UINT32])
    (by simp only []; exact h160) (by simp only []; rw [htd]; norm_num)
    (by simp only []; omega)
  rw [hrec]
  simp only [List.nil_append, Nat.sub_zero]
  rw [hstr, hpn, htd, hsp]
  simp only [List.drop_zero]
  rw [List.take_of_length_le (by rw [hbig, hlen]; omega)]
  rw [if_neg (by rw [hbig, hlen]; omega)]
  simp only [okBytes]
  rw [List.take_of_length_le (by rw [hlen, hbig]; omega)]

/-- A read on a state whose header is memoised and whose offset lies at or
beyond the header: the next bytes of the audio-page stream from the current
framer and cursor state. -/
theorem read_tail_char (s : OpusFile) (d : List Nat) (k : Nat)
    (hhd : s.header_data = some d)
    (hby : d.length ≤ s.byte_offset)
    (hcp : s.cached_page = none)
    (hbf : s.stream.buffered = [])
    (hpn : s.packet_num < UINT32)
    (htd : s.to_discard < 4213)
    (h160 : ∀ x ∈ s.src_packets, x.length = 160)
    (hk : 2 ≤ k) :
    (read s k).1 = RRes.ok (((pagesBytes (audioPages s.stream.serial s.packet_num
        s.stream.pageno (s.src_packets.drop s.src_pos))).drop s.to_discard).take k) := by
  have hgh := get_header_memo s d hhd
  unfold read
  rw [hgh]
  simp only []
  rw [if_neg (by omega)]
  obtain ⟨s9, hrec⟩ := rfp_char (s.src_packets.length + k + 8) true s k 0 []
    hcp hbf hpn h160 htd (by omega)
  unfold read_from_pages
  rw [hrec]
  simp only []
  rw [if_neg (by omega)]
  simp only [List.nil_append, Nat.sub_zero]

/-! ## Claim C1 (corrected) -/

/-- Reading with a buffer of fewer than 2 bytes on the page path panics: the
debug expression `buf[buf.len() - 2]` underflows regardless of what the page
loop produced. -/
theorem read_small_buffer_panics (s : OpusFile) (d : List Nat) (n : Nat)
    (hhd : s.header_data = some d)
    (hby : d.length ≤ s.byte_offset)
    (hn : n < 2) :
    (read s n).1 = RRes.panicked := by
  have hgh := get_header_memo s d hhd
  unfold read
  rw [hgh]
  simp only []
  rw [if_neg (by omega)]
  rcases hr : read_from_pages s n with ⟨b2, s3⟩
  simp only []
  rw [if_pos hn]

/-! ## Claim C10 (confirmed) -/

/-- C10: `read` is not total.  With the 122-byte header remaining and a
122-byte buffer the header branch's debug expression `buf[wrote_header]`
indexes one past the written region (the advanced slice is empty) — a panic;
after a seek to the header end, the page-reading path with a buffer of length
0 or 1 evaluates `buf[buf.len() - 2]`, an index underflow — a panic. -/
theorem read_panics_cases :
    (read inp52 122).1 = RRes.panicked ∧
    (read ((seek inp52 (SeekFrom.start 122)).2) 0).1 = RRes.panicked ∧
    (read ((seek inp52 (SeekFrom.start 122)).2) 1).1 = RRes.panicked := by
  have hseek := seek_start_run inp52 122 0xf01353 rfl rfl rfl (by decide) (by decide)
  have hs2 : (seek inp52 (SeekFrom.start 122)).2
      = { inp52 with
            byte_offset := 122
            header_data := some (get_header_page_data inp52).1
            stream := { serial := 0xf01353, pageno := 2, buffered := [] }
            src_pos := (122 - headerLenOf inp52) / 4213 * 26
            to_discard := (122 - headerLenOf inp52) % 4213
            packet_num := (122 - headerLenOf inp52) / 4213 * 26 % UINT32
            cached_page := none
            wrote_page_header := 0
            wrote_page_body := 0 } := by
    rw [hseek]
  refine ⟨by decide, ?_, ?_⟩
  · rw [hs2]
    exact read_small_buffer_panics _ ((get_header_page_data inp52).1) 0 rfl (by decide)
      (by norm_num)
  · rw [hs2]
    exact read_small_buffer_panics _ ((get_header_page_data inp52).1) 1 rfl (by decide)
      (by norm_num)

/-! ## Claim C4 (code bug) -/

/-- C4 evaluated at the failing input: on a 27-packet source (whose sink
never reports EOS while samples remain, spec section 4.2), the straight read
is the 122-byte header followed by exactly one 26-packet audio page — the
27th packet is silently dropped, there being no flush at end of stream — for
4335 bytes in total, and the header-type bytes of the three emitted pages
(offsets 5, 52, 127) are 2, 0, 0: BOS is set on the first page but no page
carries the EOS flag (bit 4). -/
theorem no_eos_on_last_page :
    straightRead inp27
      = (get_header_page_data inp27).1
        ++ pageBytes (pageFromPackets 0xf01353 2
            (submittedFrom 0 ((List.replicate 27 pay160).take 26)))
    ∧ (straightRead inp27).length = 4335
    ∧ (straightRead inp27).get? 5 = some 2
    ∧ (straightRead inp27).get? 52 = some 0
    ∧ (straightRead inp27).get? 127 = some 0 := by
  have h1 := read_full_char inp27 0xf01353 rfl rfl rfl rfl rfl rfl rfl (by decide) (by decide)
  have hsp : inp27.src_packets = List.replicate 27 pay160 := rfl
  rw [hsp] at h1
  have h2 : audioPages 0xf01353 0 2 (List.replicate 27 pay160)
      = [pageFromPackets 0xf01353 2 (submittedFrom 0 ((List.replicate 27 pay160).take 26))] := by
    rw [audioPages_cons 0xf01353 0 2 (List.replicate 27 pay160) (by decide)]
    rw [audioPages_nil 0xf01353 ((0 + 26) % UINT32) (2 + 1)
      ((List.replicate 27 pay160).drop 26) (by decide)]
  have h3 : straightRead inp27
      = (get_header_page_data inp27).1
        ++ pageBytes (pageFromPackets 0xf01353 2
            (submittedFrom 0 ((List.replicate 27 pay160).take 26))) := by
    rw [h1, h2]
    simp [pagesBytes, pageBytes]
  have hsz := page_sizes_26 0xf01353 2 0 ((List.replicate 27 pay160).take 26)
    (by decide) (by decide)
  have hhl : ((get_header_page_data inp27).1).length = 122 := by decide
  refine ⟨h3, ?_, ?_, ?_, ?_⟩
  · rw [h3, List.length_append, hhl, pageBytes, List.length_append, hsz.1, hsz.2]
  · rw [h3, List.get?_append (by rw [hhl]; norm_num)]
    decide
  · rw [h3, List.get?_append (by rw [hhl]; norm_num)]
    decide
  · rw [h3, List.get?_append_right (by rw [hhl]; norm_num)]
    rw [hhl]
    decide

/-- C1 counterexample: on the 52-packet input, seeking to byte 4335 (the
start of the second audio page) and reading 19 bytes does not reproduce bytes
`[4335, 4354)` of the straight read — byte 18, the low byte of the page
sequence number, is 2 after the seek (the framer page counter is not rebased
by the seek) but 3 in the straight read. -/
theorem seek_read_divergence :
    seekThenRead inp52 4335 19 ≠ RRes.ok (((straightRead inp52).drop 4335).take 19) ∧
    (okBytes (seekThenRead inp52 4335 19)).get? 18 = some 2 ∧
    (((straightRead inp52).drop 4335).take 19).get? 18 = some 3 := by
  have hseek := seek_start_run inp52 4335 0xf01353 rfl rfl rfl (by decide) (by decide)
  have hread := read_tail_char
    { inp52 with
        byte_offset := 4335
        header_data := some (get_header_page_data inp52).1
        stream := { serial := 0xf01353, pageno := 2, buffered := [] }
        src_pos := (4335 - headerLenOf inp52) / 4213 * 26
        to_discard := (4335 - headerLenOf inp52) % 4213
        packet_num := (4335 - headerLenOf inp52) / 4213 * 26 % UINT32
        cached_page := none
        wrote_page_header := 0
        wrote_page_body := 0 }
    ((get_header_page_data inp52).1) 19 rfl (by decide) rfl rfl
    (Nat.mod_lt _ (by norm_num [UINT32])) (Nat.mod_lt _ (by norm_num)) (by decide) (by decide)
  have hstr := read_full_char inp52 0xf01353 rfl rfl rfl rfl rfl rfl rfl (by decide) (by decide)
  have hhl : ((get_header_page_data inp52).1).length = 122 := by decide
  have hslice : ((straightRead inp52).drop 4335).take 19
      = ((pagesBytes (audioPages 0xf01353 ((0 + 26 * 1) % UINT32) (2 + 1)
          (inp52.src_packets.drop (26 * 1)))).take 19) := by
    rw [hstr, List.drop_append_eq_append_drop,
      List.drop_eq_nil_of_le (by rw [hhl]; norm_num), List.nil_append, hhl]
    have h4335 : (4335 : Nat) - 122 = 4213 * 1 := by norm_num
    rw [h4335, pagesBytes_drop 0xf01353 1 0 2 inp52.src_packets (by decide)
      (by norm_num [UINT32])]
  refine ⟨?_, ?_, ?_⟩
  · rw [hslice]
    unfold seekThenRead
    rw [hseek]
    simp only []
    rw [hread]
    decide
  · unfold seekThenRead
    rw [hseek]
    simp only []
    rw [hread]
    decide
  · rw [hslice]
    decide

/-- C1 corrected: seek-read equivalence holds only up to page sequence
numbers.  After `seek(SeekFrom::Start(p))` with `p` at or beyond the header
and no `u32` wrap of the page count, reading `k ≥ 2` bytes yields the
audio-page stream restarted at packet `26 * pages` (where
`pages = (p - header_len) / 4213`) with the residual `(p - header_len) % 4213`
bytes discarded and the framer page counter still at its post-header value 2,
while the straight-read slice `[p, p+k)` is the same stream with the page
counter rebased to `2 + pages`: the two byte sequences agree except in the
page-sequence-number field of each page header (and they are equal exactly
when `pages = 0`). -/
theorem seek_read_equiv_upto_pageno (idh ch : List Nat) (pkts : List (List Nat)) (p k : Nat)
    (h160 : ∀ x ∈ pkts, x.length = 160)
    (hk : 2 ≤ k)
    (hH : 0 < headerLenOf (OpusFile.create idh ch pkts))
    (hp : headerLenOf (OpusFile.create idh ch pkts) ≤ p)
    (hnw : (p - headerLenOf (OpusFile.create idh ch pkts)) / 4213 * 520 < UINT32) :
    seekThenRead (OpusFile.create idh ch pkts) p k
      = RRes.ok (((pagesBytes (audioPages 0xf01353
            ((p - headerLenOf (OpusFile.create idh ch pkts)) / 4213 * 26 % UINT32) 2
            (pkts.drop ((p - headerLenOf (OpusFile.create idh ch pkts)) / 4213 * 26)))).drop
            ((p - headerLenOf (OpusFile.create idh ch pkts)) % 4213)).take k)
    ∧ ((straightRead (OpusFile.create idh ch pkts)).drop p).take k
      = ((pagesBytes (audioPages 0xf01353
            ((p - headerLenOf (OpusFile.create idh ch pkts)) / 4213 * 26 % UINT32)
            (2 + (p - headerLenOf (OpusFile.create idh ch pkts)) / 4213)
            (pkts.drop ((p - headerLenOf (OpusFile.create idh ch pkts)) / 4213 * 26)))).drop
            ((p - headerLenOf (OpusFile.create idh ch pkts)) % 4213)).take k := by
  have hseek := seek_start_run (OpusFile.create idh ch pkts) p 0xf01353 rfl rfl rfl hp hnw
  constructor
  · unfold seekThenRead
    rw [hseek]
    simp only []
    have hread := read_tail_char
      { OpusFile.create idh ch pkts with
          byte_offset := p
          header_data := some (get_header_page_data (OpusFile.create idh ch pkts)).1
          stream := { serial := 0xf01353, pageno := 2, buffered := [] }
          src_pos := (p - headerLenOf (OpusFile.create idh ch pkts)) / 4213 * 26
          to_discard := (p - headerLenOf (OpusFile.create idh ch pkts)) % 4213
          packet_num := (p - headerLenOf (OpusFile.create idh ch pkts)) / 4213 * 26 % UINT32
          cached_page := none
          wrote_page_header := 0
          wrote_page_body := 0 }
      ((get_header_page_data (OpusFile.create idh ch pkts)).1) k rfl hp rfl rfl
      (Nat.mod_lt _ (by norm_num [UINT32])) (Nat.mod_lt _ (by norm_num)) h160 hk
    rw [hread]
    rfl
  · rw [read_full_char (OpusFile.create idh ch pkts) 0xf01353 rfl rfl rfl rfl rfl rfl rfl
      h160 hH]
    have hsp : (OpusFile.create idh ch pkts).src_packets = pkts := rfl
    rw [hsp]
    rw [List.drop_append_eq_append_drop]
    rw [List.drop_eq_nil_of_le hp, List.nil_append]
    have hlen : ((get_header_page_data (OpusFile.create idh ch pkts)).1).length
        = headerLenOf (OpusFile.create idh ch pkts) := rfl
    rw [hlen]
    have hsplit : p - headerLenOf (OpusFile.create idh ch pkts)
        = 4213 * ((p - headerLenOf (OpusFile.create idh ch pkts)) / 4213)
          + (p - headerLenOf (OpusFile.create idh ch pkts)) % 4213 := by
      omega
    have h1 : (0 + 26 * ((p - headerLenOf (OpusFile.create idh ch pkts)) / 4213)) % UINT32
        = (p - headerLenOf (OpusFile.create idh ch pkts)) / 4213 * 26 % UINT32 := by
      rw [Nat.zero_add, Nat.mul_comm]
    have h2 : 26 * ((p - headerLenOf (OpusFile.create idh ch pkts)) / 4213)
        = (p - headerLenOf (OpusFile.create idh ch pkts)) / 4213 * 26 := Nat.mul_comm _ _
    conv_lhs => rw [hsplit, ← List.drop_drop,
      pagesBytes_drop 0xf01353 ((p - headerLenOf (OpusFile.create idh ch pkts)) / 4213) 0 2 pkts h160 (by norm_num [UINT32]),
      h1, h2]

/-- C1 witness: the corrected statement instantiated on the 52-packet input
at position 4335 (the start of the second audio page) with a 19-byte read. -/
theorem seek_read_equiv_upto_pageno_witness :
    seekThenRead inp52 4335 19
      = RRes.ok (((pagesBytes (audioPages 0xf01353
            ((4335 - headerLenOf inp52) / 4213 * 26 % UINT32) 2
            ((List.replicate 52 pay160).drop ((4335 - headerLenOf inp52) / 4213 * 26)))).drop
            ((4335 - headerLenOf inp52) % 4213)).take 19)
    ∧ ((straightRead inp52).drop 4335).take 19
      = ((pagesBytes (audioPages 0xf01353
            ((4335 - headerLenOf inp52) / 4213 * 26 % UINT32)
            (2 + (4335 - headerLenOf inp52) / 4213)
            ((List.replicate 52 pay160).drop ((4335 - headerLenOf inp52) / 4213 * 26)))).drop
            ((4335 - headerLenOf inp52) % 4213)).take 19 :=
  seek_read_equiv_upto_pageno idh19 ch47 (List.replicate 52 pay160) 4335 19
    (by decide) (by decide) (by decide) (by decide) (by decide)

end Vorleser
